import Mathlib

/-!
The self-scaling worker pool of `worker.go`.

A shallow embedding of `src/worker.go` and the properties of its
construction, capacity probe, scaler, submission, workers and shutdown.

Modelling conventions.

* Go's `int` and `time.Duration` are 64-bit integers, modelled by `Int` (a
  duration is a number of nanoseconds).  The one operation of the program that
  can leave the 64-bit range on its inputs, `pQSize*2` in `CreateScall`, wraps
  around as in Go (`wrapInt`).
* `make(chan T, n)` faults on a negative size and on a size out of range for
  the runtime; the largest sizes the runtime accepts depend on the element
  types and on the platform and are parameters (`Limits`).  Running out of
  memory is outside the model.
* Go's `/` on `int` truncates toward zero (`Int.tdiv`) and faults on a zero
  divisor; a run-time fault is an explicit result (`none`, `Outcome.crash`).
* A buffered channel is its queued values, its capacity and its closed flag.
  The job channel is shared with producers and workers, so between two calls
  of the scaler its contents may be replaced by the environment (`setJobs`).
* `context.WithCancel` hands out a fresh context; a cancellation handle is the
  identity of the context it cancels.  Started goroutines and invoked handles
  are recorded in a `Runtime`.
* `log.Info` only writes to the log and is left out; `log.Error msg` is
  modelled by the error carrying `msg`.
* The concurrent program is an interleaving of atomic steps (`Event`,
  `worldStep`): the two statements of `Do`, the two calls of the scaler, and
  the statements of the loop body of `worker`.  A step that cannot be taken
  now is `Run.blocked`, a run-time fault is `Run.crash`.  The statements of
  `Stop` are steps of their own (`Event.stop`); `Stop` as a function is their
  uninterrupted composition.
-/

namespace Worker

/-! ## Data model -/

/-- Buffered Go channel: queued values (oldest first), capacity, closed flag. -/
structure Chan (α : Type) where
  buf : List α
  cap : Int
  closed : Bool

/-- Go's `make(chan T, n)`: faults on a negative size and on a size above the
largest one the runtime accepts for the element type (`limit`). -/
def makeChan {α : Type} (limit n : Int) : Option (Chan α) :=
  if n < 0 ∨ limit < n then none else some { buf := [], cap := n, closed := false }

/-- The largest channel sizes the runtime accepts for `chan pJob` and for
`chan pExpected`. -/
structure Limits where
  jobMax : Int
  resMax : Int
  deriving DecidableEq, Repr

/-- Arithmetic on Go's 64-bit `int` wraps around: the value of an exact result
`x` as an `int`. -/
def wrapInt (x : Int) : Int :=
  (x + 9223372036854775808) % 18446744073709551616 - 9223372036854775808

/-- Go's `len(c)` for a channel. -/
def Chan.len {α : Type} (c : Chan α) : Int := (c.buf.length : Int)

/-- Go's `a / b` on `int`: truncated quotient, fault on a zero divisor. -/
def goDiv (a b : Int) : Option Int :=
  if b = 0 then none else some (Int.tdiv a b)

/-- Go's `time.Second`, in nanoseconds. -/
def timeSecond : Int := 1000000000

/-- A `context.CancelFunc`: the identity of the context it cancels. -/
structure CancelFunc where
  ctx : Nat
  deriving DecidableEq, Repr

/-- A goroutine started by the pool. -/
inductive Goroutine where
  | scaler : Goroutine
  | worker (ctx : Nat) (pEmpID : Int) : Goroutine
  deriving DecidableEq, Repr

/-- What the pool has done to the Go runtime: contexts created so far,
goroutines started (in start order), contexts cancelled (in call order). -/
structure Runtime where
  ctxCount : Nat
  goroutines : List Goroutine
  cancelled : List Nat
  deriving DecidableEq, Repr

/-- A `*time.Ticker`. -/
structure Ticker where
  period : Int
  running : Bool
  deriving DecidableEq, Repr

/-- The struct `WorkerScall[pJob, pExpected]`.  The field `do` is `doFunc`
here; the embedded `*sync.WaitGroup` is its counter; a nil channel or ticker
is `none`. -/
structure WorkerScall (J E : Type) where
  minWorker : Int
  maxWorker : Int
  clinetSize : Int
  scallPoint : Int
  currentEmp : Int
  cancelFuncs : List CancelFunc
  job : Chan J
  doFunc : J → E
  progress : Option (Chan E)
  progressFlag : Bool
  WaitGroup : Int
  Duration : Int
  Ticker : Option Ticker

/-- Result of a call that returns `(value, error)` or faults. -/
inductive Outcome (α : Type) where
  | ret (val : α) : Outcome α
  | fail (lErr : String) : Outcome α
  | crash : Outcome α

/-! ## Operations -/

/-- `CreateScall`: the five checks in source order, then the pool literal
(with `make(chan pJob, pQSize)`), the optional result channel
(`make(chan pExpected, pQSize*2)`, the product computed on `int`) and
`go lWorkerRec.start()`. -/
def CreateScall {J E : Type} (lim : Limits) (rt : Runtime)
    (pScallCycle pMin pMax pQSize pScallPoint : Int) (pFunc : J → E)
    (pExpectedFlab : Bool) : Outcome (WorkerScall J E × Runtime) :=
  if pMin < 1 then
    .fail "min requed 1 worker"
  else if pMax ≤ pMin then
    .fail "max is greater then min val"
  else if pQSize < 100 then
    .fail "q-size must be greater then 10"
  else if pScallPoint < 10 ∨ pScallPoint > Int.tdiv pQSize 2 then
    .fail "scall-up point is greater then 10 and less then q-size/2"
  else if pScallCycle < 5 * timeSecond then
    .fail "scall up time must be greater then or eq to 5 sec"
  else
    match makeChan lim.jobMax pQSize with
    | none => .crash
    | some lJob =>
      let lWorkerRec : WorkerScall J E :=
        { minWorker := pMin
          maxWorker := pMax
          clinetSize := pQSize
          scallPoint := pScallPoint
          currentEmp := 0
          cancelFuncs := []
          job := lJob
          doFunc := pFunc
          progress := none
          progressFlag := false
          WaitGroup := 0
          Duration := pScallCycle
          Ticker := none }
      let rt1 : Runtime := { rt with goroutines := rt.goroutines ++ [Goroutine.scaler] }
      if pExpectedFlab then
        match makeChan lim.resMax (wrapInt (pQSize * 2)) with
        | none => .crash
        | some lProgress =>
          .ret ({ lWorkerRec with progress := some lProgress, progressFlag := true }, rt1)
      else
        .ret (lWorkerRec, rt1)

/-- `IsSpaceIn`: the probe, returned together with the pool it leaves behind. -/
def IsSpaceIn {J E : Type} (p : WorkerScall J E) : Bool × WorkerScall J E :=
  (decide (p.job.len + p.currentEmp < p.clinetSize), p)

/-- `scallup`. -/
def scallup {J E : Type} (p : WorkerScall J E) (rt : Runtime) :
    Option (WorkerScall J E × Runtime) :=
  match goDiv p.job.len p.scallPoint with
  | none => none
  | some lCur =>
    if lCur < p.maxWorker ∧ lCur > p.currentEmp ∧ p.currentEmp < p.maxWorker then
      let lClear : CancelFunc := { ctx := rt.ctxCount }
      some ({ p with cancelFuncs := p.cancelFuncs ++ [lClear]
                     currentEmp := p.currentEmp + 1 },
            { rt with ctxCount := rt.ctxCount + 1
                      goroutines := rt.goroutines ++ [Goroutine.worker rt.ctxCount (p.currentEmp + 1)] })
    else
      some (p, rt)

/-- `scallDown`; indexing an empty handle list faults. -/
def scallDown {J E : Type} (p : WorkerScall J E) (rt : Runtime) :
    Option (WorkerScall J E × Runtime) :=
  match goDiv p.job.len p.scallPoint with
  | none => none
  | some lCur =>
    if lCur < p.currentEmp ∧ p.currentEmp > p.minWorker then
      match p.cancelFuncs.getLast? with
      | none => none
      | some lLeastWorker =>
        some ({ p with cancelFuncs := p.cancelFuncs.dropLast
                       currentEmp := p.currentEmp - 1 },
              { rt with cancelled := rt.cancelled ++ [lLeastWorker.ctx] })
    else
      some (p, rt)

/-- The environment (producers and workers) replaces the queued jobs. -/
def setJobs {J E : Type} (p : WorkerScall J E) (js : List J) : WorkerScall J E :=
  { p with job := { p.job with buf := js } }

/-- One iteration of the loop of `start`: `scallup` then `scallDown`, the
first seeing the queue `js1` and the second the queue `js2`. -/
def tick {J E : Type} (p : WorkerScall J E) (rt : Runtime) (js1 js2 : List J) :
    Option (WorkerScall J E × Runtime) :=
  match scallup (setJobs p js1) rt with
  | none => none
  | some (p1, rt1) => scallDown (setJobs p1 js2) rt1

/-! ## Specification-side definitions -/

/-- The spec's `demand = floor(queueLength / scalePoint)`, over the rationals. -/
def specDemand {J E : Type} (p : WorkerScall J E) : Int :=
  ⌊((p.job.len : ℚ) / (p.scallPoint : ℚ))⌋

/-- The invariants of §3 on a configuration. -/
def ValidConfig (cycle min max queueCapacity scalePoint : Int) : Prop :=
  1 ≤ min ∧ min < max ∧ 100 ≤ queueCapacity ∧
    10 ≤ scalePoint ∧ scalePoint ≤ queueCapacity / 2 ∧ 5 * timeSecond ≤ cycle

/-- The buffers of a configuration can be made: the queue capacity is within
the limit for a job channel and, when results are collected, twice the queue
capacity does not overflow `int` (the capacity is below `2^62`) and is within
the limit for a result channel. -/
def Fits (lim : Limits) (queueCapacity : Int) (collectResults : Bool) : Prop :=
  queueCapacity ≤ lim.jobMax ∧
    (collectResults = true →
      queueCapacity < 4611686018427387904 ∧ queueCapacity * 2 ≤ lim.resMax)

/-- Limits for element types of size zero (such as `struct{}`): every size
that is a non-negative `int`. -/
def unitLimits : Limits :=
  { jobMax := 9223372036854775807, resMax := 9223372036854775807 }

/-- Limits of a runtime that makes channels of up to a million elements. -/
def demoLimits : Limits := { jobMax := 1000000, resMax := 1000000 }

/-- The pool literal that `CreateScall` returns on an accepted configuration. -/
def freshPool {J E : Type} (cycle min max q sp : Int) (f : J → E) (flag : Bool) :
    WorkerScall J E :=
  { minWorker := min
    maxWorker := max
    clinetSize := q
    scallPoint := sp
    currentEmp := 0
    cancelFuncs := []
    job := { buf := [], cap := q, closed := false }
    doFunc := f
    progress := if flag then some { buf := [], cap := q * 2, closed := false } else none
    progressFlag := flag
    WaitGroup := 0
    Duration := cycle
    Ticker := none }

/-- A call of the scaler. -/
inductive ScalerCall where
  | up : ScalerCall
  | down : ScalerCall
  deriving DecidableEq, Repr

/-- Run one call of the scaler. -/
def callScaler {J E : Type} (c : ScalerCall) (p : WorkerScall J E) (rt : Runtime) :
    Option (WorkerScall J E × Runtime) :=
  match c with
  | ScalerCall.up => scallup p rt
  | ScalerCall.down => scallDown p rt

/-- Run a sequence of scaler calls, each one seeing the queue the environment
has left at that moment. -/
def runCalls {J E : Type} (p : WorkerScall J E) (rt : Runtime) :
    List (ScalerCall × List J) → Option (WorkerScall J E × Runtime)
  | [] => some (p, rt)
  | (c, js) :: rest =>
    match callScaler c (setJobs p js) rt with
    | none => none
    | some (p1, rt1) => runCalls p1 rt1 rest

/-- Run the loop of `start` for one tick per element of the list; each tick is
given the queue seen by `scallup` and the queue seen by `scallDown`. -/
def runTicks {J E : Type} (p : WorkerScall J E) (rt : Runtime) :
    List (List J × List J) → Option (WorkerScall J E × Runtime)
  | [] => some (p, rt)
  | (js1, js2) :: rest =>
    match tick p rt js1 js2 with
    | none => none
    | some (p1, rt1) => runTicks p1 rt1 rest

/-- The configuration fields of two pool states agree. -/
def SameConfig {J E : Type} (p p1 : WorkerScall J E) : Prop :=
  p1.minWorker = p.minWorker ∧ p1.maxWorker = p.maxWorker ∧
    p1.scallPoint = p.scallPoint ∧ p1.clinetSize = p.clinetSize

/-- The invariant of the scaler: positive scale point, one handle per counted
worker, and the count below the maximum. -/
def ScalerInv {J E : Type} (p : WorkerScall J E) : Prop :=
  0 < p.scallPoint ∧ (p.cancelFuncs.length : Int) = p.currentEmp ∧
    p.currentEmp < p.maxWorker

/-- A runtime in which nothing has been started yet. -/
def bootRuntime : Runtime := { ctxCount := 0, goroutines := [], cancelled := [] }

/-- A pool of the spec's end-to-end configuration (`min = 2`, `max = 10`,
`queueCapacity = 200`, `scalePoint = 20`, `cycle = 5 s`) with two workers and
70 queued jobs. -/
def demoPool : WorkerScall Unit Unit :=
  { minWorker := 2
    maxWorker := 10
    clinetSize := 200
    scallPoint := 20
    currentEmp := 2
    cancelFuncs := [{ ctx := 0 }, { ctx := 1 }]
    job := { buf := List.replicate 70 (), cap := 200, closed := false }
    doFunc := id
    progress := none
    progressFlag := false
    WaitGroup := 70
    Duration := 5 * timeSecond
    Ticker := some { period := 5 * timeSecond, running := true } }

/-- The runtime that goes with `demoPool`. -/
def demoRuntime : Runtime :=
  { ctxCount := 2
    goroutines := [Goroutine.scaler, Goroutine.worker 0 1, Goroutine.worker 1 2]
    cancelled := [] }

/-- Whether a goroutine is a worker whose context is not among the cancelled
ones. -/
def Goroutine.isLive (cancelled : List Nat) : Goroutine → Bool
  | Goroutine.scaler => false
  | Goroutine.worker c _ => decide (c ∉ cancelled)

/-- The workers started and not yet cancelled, in start order. -/
def liveWorkers (rt : Runtime) : List Goroutine :=
  rt.goroutines.filter (Goroutine.isLive rt.cancelled)

/-- The workers that a handle list stands for when its first handle has
position `n + 1`: the handle at position `i` belongs to the worker with
ordinal `i`. -/
def handleWorkersFrom (n : Nat) : List CancelFunc → List Goroutine
  | [] => []
  | h :: hs => Goroutine.worker h.ctx ((n : Int) + 1) :: handleWorkersFrom (n + 1) hs

/-- The invariant that ties handles to workers: one handle per counted
worker, the live workers are those of the handle list in order, and contexts
are fresh. -/
def StackInv {J E : Type} (p : WorkerScall J E) (rt : Runtime) : Prop :=
  0 < p.scallPoint ∧ (p.cancelFuncs.length : Int) = p.currentEmp ∧
    liveWorkers rt = handleWorkersFrom 0 p.cancelFuncs ∧
    (∀ h ∈ p.cancelFuncs, h.ctx < rt.ctxCount) ∧
    (p.cancelFuncs.map CancelFunc.ctx).Nodup ∧
    (∀ c ∈ rt.cancelled, c < rt.ctxCount)

/-- Result of a call or step that may also block or fault. -/
inductive Run (α : Type) where
  | done (val : α) : Run α
  | blocked : Run α
  | crash : Run α

/-- Go's `close(c)`: faults on a closed channel. -/
def closeChan {α : Type} (c : Chan α) : Option (Chan α) :=
  if c.closed then none else some { c with closed := true }

/-- Result of `Stop`: it returns, its `Wait()` never returns, or it faults; a
fault carries the pool and the runtime as they are when it happens. -/
inductive Stopped (α : Type) where
  | returned (val : α) : Stopped α
  | waiting : Stopped α
  | faulted (reached : α) : Stopped α

/-- The first statement of `start`: `time.NewTicker(pWorkerRec.Duration)`,
which faults on a duration that is not positive. -/
def startTicker {J E : Type} (p : WorkerScall J E) : Option (WorkerScall J E) :=
  if p.Duration ≤ 0 then none
  else some { p with Ticker := some { period := p.Duration, running := true } }

/-- `Stop`, after the wait: `if Ticker != nil { Ticker.Stop() }`. -/
def stopTicker {J E : Type} (p : WorkerScall J E) : WorkerScall J E :=
  { p with Ticker := p.Ticker.map (fun t => { t with running := false }) }

/-- `Stop`: the loop that invokes every handle of `cancelFuncs`, in order. -/
def stopCancel {J E : Type} (p : WorkerScall J E) (rt : Runtime) : Runtime :=
  { rt with cancelled := rt.cancelled ++ p.cancelFuncs.map CancelFunc.ctx }

/-- `Stop`: `close(pWorkerRec.job)`. -/
def stopCloseJob {J E : Type} (p : WorkerScall J E) : Option (WorkerScall J E) :=
  match closeChan p.job with
  | none => none
  | some lJob => some { p with job := lJob }

/-- `Stop`: `if progressFlag { close(pWorkerRec.progress) }`; closing a nil
channel faults. -/
def stopCloseProgress {J E : Type} (p : WorkerScall J E) : Option (WorkerScall J E) :=
  if p.progressFlag then
    match p.progress with
    | none => none
    | some lProgress =>
      match closeChan lProgress with
      | none => none
      | some lClosed => some { p with progress := some lClosed }
  else some p

/-- `Stop`, run without interruption: `Wait()` never returns while the counter
is not zero; then the ticker is stopped, every handle is invoked, the job
channel is closed and, if results are collected, the result channel. -/
def Stop {J E : Type} (p : WorkerScall J E) (rt : Runtime) :
    Stopped (WorkerScall J E × Runtime) :=
  if p.WaitGroup ≠ 0 then Stopped.waiting
  else
    let p1 := stopTicker p
    let rt1 := stopCancel p1 rt
    match stopCloseJob p1 with
    | none => Stopped.faulted (p1, rt1)
    | some p2 =>
      match stopCloseProgress p2 with
      | none => Stopped.faulted (p2, rt1)
      | some p3 => Stopped.returned (p3, rt1)

/-- How far a call of `Stop` has got: not past its wait, past the wait, past
the ticker, past the handles, past `close(job)`, returned. -/
inductive StopPhase where
  | idle : StopPhase
  | waited : StopPhase
  | tickerStopped : StopPhase
  | handlesInvoked : StopPhase
  | jobClosed : StopPhase
  | returned : StopPhase
  deriving DecidableEq, Repr

/-- Whether `Stop` has not yet closed the job channel. -/
def StopPhase.early : StopPhase → Bool
  | StopPhase.idle => true
  | StopPhase.waited => true
  | StopPhase.tickerStopped => true
  | StopPhase.handlesInvoked => true
  | StopPhase.jobClosed => false
  | StopPhase.returned => false

/-- Where a worker that has taken a job stands in the body of its loop. -/
inductive Phase (J E : Type) where
  | got (lJob : J) : Phase J E
  | ran (lResp : E) : Phase J E
  | sent : Phase J E

/-- The running program: the pool, the runtime, the number of calls of `Do`
that have sent their job and not yet called `Add(1)`, the workers inside the
body of their loop, the workers that have returned, the jobs passed to `Do`
(in send order), the jobs on which the function has been called (in call
order), and how far the call of `Stop` has got. -/
structure World (J E : Type) where
  pool : WorkerScall J E
  rt : Runtime
  inDo : Nat
  busy : List (Nat × Phase J E)
  exited : List Nat
  submitted : List J
  invoked : List J
  stopAt : StopPhase

/-- An atomic step of the running program. -/
inductive Event (J : Type) where
  | doSend (pWork : J) : Event J
  | doAdd : Event J
  | up : Event J
  | down : Event J
  | recv (ctx : Nat) : Event J
  | call (ctx : Nat) : Event J
  | emit (ctx : Nat) : Event J
  | fin (ctx : Nat) : Event J
  | quit (ctx : Nat) : Event J
  | start : Event J
  | stop : Event J

/-- The phase of the worker with context `c`, if it is inside its loop body. -/
def phaseOf {J E : Type} (c : Nat) : List (Nat × Phase J E) → Option (Phase J E)
  | [] => none
  | (d, ph) :: rest => if d = c then some ph else phaseOf c rest

/-- Drop the entry of the worker with context `c`. -/
def release {J E : Type} (c : Nat) : List (Nat × Phase J E) → List (Nat × Phase J E)
  | [] => []
  | (d, ph) :: rest => if d = c then rest else (d, ph) :: release c rest

/-- The jobs taken from the queue on which the function has not been called. -/
def gotJobs {J E : Type} : List (Nat × Phase J E) → List J
  | [] => []
  | (_, Phase.got j) :: rest => j :: gotJobs rest
  | (_, Phase.ran _) :: rest => gotJobs rest
  | (_, Phase.sent) :: rest => gotJobs rest

/-- Whether a worker goroutine with context `c` has been started. -/
def started (rt : Runtime) (c : Nat) : Bool :=
  rt.goroutines.any (fun g =>
    match g with
    | Goroutine.scaler => false
    | Goroutine.worker d _ => decide (d = c))

/-- Whether the worker with context `c` is at the `select` of its loop. -/
def atSelect {J E : Type} (w : World J E) (c : Nat) : Bool :=
  started w.rt c && !(w.exited.contains c) && (phaseOf c w.busy).isNone

/-- One atomic step.  `doSend`/`doAdd` are the two statements of `Do`; `up`
and `down` are the two calls in the loop of `start`; `recv`, `call`, `emit`,
`fin` are the job case of the loop of `worker` (receive, `do(lJob)`, the send
to `progress` when results are collected, `Done()`), and `quit` is its
`Done()`-of-context case; `start` is the first statement of the scaler
goroutine (the ticker); `stop` is the next statement of `Stop` (the wait, the
ticker, the handles, `close(job)`, then the optional `close(progress)` and
the return).  A step that cannot be taken now is `blocked`.  The calls of the
scaler are not tied to the ticker: `up` and `down` may be taken at any time,
which includes every schedule of the program. -/
def worldStep {J E : Type} [Inhabited J] (w : World J E) : Event J → Run (World J E)
  | Event.doSend pWork =>
    if w.pool.job.closed then Run.crash
    else if w.pool.job.len < w.pool.job.cap then
      Run.done { w with pool := { w.pool with job := { w.pool.job with
                                    buf := w.pool.job.buf ++ [pWork] } }
                        inDo := w.inDo + 1
                        submitted := w.submitted ++ [pWork] }
    else Run.blocked
  | Event.doAdd =>
    if w.inDo = 0 then Run.blocked
    else if w.pool.WaitGroup + 1 < 0 then Run.crash
    else
      Run.done { w with pool := { w.pool with WaitGroup := w.pool.WaitGroup + 1 }
                        inDo := w.inDo - 1 }
  | Event.up =>
    match scallup w.pool w.rt with
    | none => Run.crash
    | some (p, rt) => Run.done { w with pool := p, rt := rt }
  | Event.down =>
    match scallDown w.pool w.rt with
    | none => Run.crash
    | some (p, rt) => Run.done { w with pool := p, rt := rt }
  | Event.recv c =>
    if atSelect w c then
      match w.pool.job.buf with
      | lJob :: rest =>
        Run.done { w with pool := { w.pool with job := { w.pool.job with buf := rest } }
                          busy := (c, Phase.got lJob) :: w.busy }
      | [] =>
        if w.pool.job.closed then
          Run.done { w with busy := (c, Phase.got default) :: w.busy }
        else Run.blocked
    else Run.blocked
  | Event.call c =>
    match phaseOf c w.busy with
    | some (Phase.got lJob) =>
      Run.done { w with invoked := w.invoked ++ [lJob]
                        busy := (c, if w.pool.progressFlag then Phase.ran (w.pool.doFunc lJob)
                                    else Phase.sent) :: release c w.busy }
    | _ => Run.blocked
  | Event.emit c =>
    match phaseOf c w.busy with
    | some (Phase.ran lResp) =>
      match w.pool.progress with
      | none => Run.blocked
      | some lProgress =>
        if lProgress.closed then Run.crash
        else if lProgress.len < lProgress.cap then
          Run.done { w with pool := { w.pool with progress := some { lProgress with
                                        buf := lProgress.buf ++ [lResp] } }
                            busy := (c, Phase.sent) :: release c w.busy }
        else Run.blocked
    | _ => Run.blocked
  | Event.fin c =>
    match phaseOf c w.busy with
    | some Phase.sent =>
      if w.pool.WaitGroup - 1 < 0 then Run.crash
      else
        Run.done { w with pool := { w.pool with WaitGroup := w.pool.WaitGroup - 1 }
                          busy := release c w.busy }
    | _ => Run.blocked
  | Event.quit c =>
    if atSelect w c && w.rt.cancelled.contains c then
      Run.done { w with exited := w.exited ++ [c] }
    else Run.blocked
  | Event.start =>
    match w.pool.Ticker with
    | some _ => Run.blocked
    | none =>
      if Goroutine.scaler ∈ w.rt.goroutines then
        match startTicker w.pool with
        | none => Run.crash
        | some p => Run.done { w with pool := p }
      else Run.blocked
  | Event.stop =>
    match w.stopAt with
    | StopPhase.idle =>
      if w.pool.WaitGroup ≠ 0 then Run.blocked
      else Run.done { w with stopAt := StopPhase.waited }
    | StopPhase.waited =>
      Run.done { w with pool := stopTicker w.pool, stopAt := StopPhase.tickerStopped }
    | StopPhase.tickerStopped =>
      Run.done { w with rt := stopCancel w.pool w.rt, stopAt := StopPhase.handlesInvoked }
    | StopPhase.handlesInvoked =>
      match stopCloseJob w.pool with
      | none => Run.crash
      | some p => Run.done { w with pool := p, stopAt := StopPhase.jobClosed }
    | StopPhase.jobClosed =>
      match stopCloseProgress w.pool with
      | none => Run.crash
      | some p => Run.done { w with pool := p, stopAt := StopPhase.returned }
    | StopPhase.returned => Run.blocked

/-- Run a sequence of atomic steps; stop at the first that blocks or faults. -/
def runEvents {J E : Type} [Inhabited J] (w : World J E) : List (Event J) → Run (World J E)
  | [] => Run.done w
  | e :: rest =>
    match worldStep w e with
    | Run.done w1 => runEvents w1 rest
    | Run.blocked => Run.blocked
    | Run.crash => Run.crash

/-- The program right after `CreateScall` has returned `p` in runtime `rt`. -/
def startWorld {J E : Type} (p : WorkerScall J E) (rt : Runtime) : World J E :=
  { pool := p, rt := rt, inDo := 0, busy := [], exited := [], submitted := [], invoked := []
    stopAt := StopPhase.idle }

/-- The pool of the configuration `min = 1`, `max = 10`, `queueCapacity = 100`,
`scalePoint = 10`, `cycle = 5 s` without result collection, as `CreateScall`
returns it. -/
def tinyPool : WorkerScall Nat Nat := freshPool (5 * timeSecond) 1 10 100 10 (fun n => 2 * n) false

/-- The runtime right after `CreateScall` in a program that had started
nothing. -/
def tinyRuntime : Runtime :=
  { bootRuntime with goroutines := bootRuntime.goroutines ++ [Goroutine.scaler] }

/-- Complete calls of `Do`, one per job of the list, one after the other. -/
def submitEvents {J : Type} (js : List J) : List (Event J) :=
  js.flatMap (fun j => [Event.doSend j, Event.doAdd])

/-- The worker with context `c` takes and fully processes `n` jobs (without
result collection). -/
def serveEvents {J : Type} (c n : Nat) : List (Event J) :=
  (List.replicate n [Event.recv c, Event.call c, Event.fin c]).flatten

/-- Bookkeeping of the running program: every submitted job is in the queue,
taken by a worker that has not yet called the function on it, or among the
jobs the function has been called on; the counter plus the calls of `Do`
between their two statements equals the queued jobs plus the workers inside
their loop body; and the job channel is open. -/
def Conserved {J E : Type} (w : World J E) : Prop :=
  w.submitted.Perm (w.invoked ++ gotJobs w.busy ++ w.pool.job.buf) ∧
    w.pool.WaitGroup + (w.inDo : Int) =
      (w.pool.job.buf.length : Int) + (w.busy.length : Int) ∧
    w.pool.job.closed = false

/-- The program after `Do(7)` has completed on `tinyPool`: job 7 is queued and
the counter is 1. -/
def oneJobWorld : World Nat Nat :=
  { pool := { setJobs tinyPool [7] with WaitGroup := 1 }
    rt := tinyRuntime
    inDo := 0
    busy := []
    exited := []
    submitted := [7]
    invoked := []
    stopAt := StopPhase.idle }

/-- The program on `tinyPool` after the jobs 0..9 have been submitted, one
worker has been started and has processed them all. -/
def drainedWorld : World Nat Nat :=
  { pool := { tinyPool with currentEmp := 1, cancelFuncs := [{ ctx := 0 }] }
    rt := { ctxCount := 1
            goroutines := [Goroutine.scaler, Goroutine.worker 0 1]
            cancelled := [] }
    inDo := 0
    busy := []
    exited := []
    submitted := List.range 10
    invoked := List.range 10
    stopAt := StopPhase.idle }

/-- What the spec says of the pool that construction returns: it stores the
configuration as given, has no workers and no handles, an empty open job
buffer of capacity `queueCapacity`, and a result buffer exactly when results
are collected, empty and of capacity `2 * queueCapacity`. -/
def FreshlyBuilt {J E : Type} (p : WorkerScall J E) (cycle min max queueCapacity scalePoint : Int)
    (collectResults : Bool) : Prop :=
  p.minWorker = min ∧ p.maxWorker = max ∧ p.clinetSize = queueCapacity ∧
    p.scallPoint = scalePoint ∧ p.Duration = cycle ∧ p.currentEmp = 0 ∧
    p.cancelFuncs = [] ∧ p.job.buf = [] ∧ p.job.cap = queueCapacity ∧
    p.job.closed = false ∧ p.progress.isSome = collectResults ∧
    p.progressFlag = collectResults ∧
    (∀ c, p.progress = some c → c.buf = [] ∧ c.cap = 2 * queueCapacity ∧ c.closed = false)

/-- A pool of the spec's end-to-end configuration with three workers and an
empty queue. -/
def threePool : WorkerScall Unit Unit :=
  { minWorker := 2
    maxWorker := 10
    clinetSize := 200
    scallPoint := 20
    currentEmp := 3
    cancelFuncs := [{ ctx := 0 }, { ctx := 1 }, { ctx := 2 }]
    job := { buf := [], cap := 200, closed := false }
    doFunc := id
    progress := none
    progressFlag := false
    WaitGroup := 0
    Duration := 5 * timeSecond
    Ticker := some { period := 5 * timeSecond, running := true } }

/-- The runtime that goes with `threePool`. -/
def threeRuntime : Runtime :=
  { ctxCount := 3
    goroutines := [Goroutine.scaler, Goroutine.worker 0 1, Goroutine.worker 1 2,
      Goroutine.worker 2 3]
    cancelled := [] }

/-- A program that cannot make progress on its queue: no worker goroutine has
been started, no worker is inside its loop body, the queue is shorter than the
scale point, no call of `Do` is between its two statements, the counter is not
zero, `Stop` has not got past its wait and the function has not been called. -/
def Starved {J E : Type} (w : World J E) : Prop :=
  0 < w.pool.scallPoint ∧ w.pool.currentEmp = 0 ∧ w.pool.job.len < w.pool.scallPoint ∧
    (∀ c, started w.rt c = false) ∧ w.busy = [] ∧ w.inDo = 0 ∧ w.pool.WaitGroup ≠ 0 ∧
    w.stopAt = StopPhase.idle ∧ w.invoked = []

/-! ## Shared lemmas -/

/-- Go's truncated quotient of a queue length by a positive scale point is the
floor of the rational quotient. -/
theorem goDiv_len_eq_floor (n : Nat) (b : Int) (hb : 0 < b) :
    goDiv (n : Int) b = some ⌊(((n : Int) : ℚ) / (b : ℚ))⌋ := by
  have hne : b ≠ 0 := ne_of_gt hb
  have hq : Int.tdiv (n : Int) b = (n : Int) / b :=
    Int.tdiv_eq_ediv (Int.ofNat_nonneg n) (le_of_lt hb)
  have hcast : ((b.toNat : ℕ) : ℤ) = b := Int.toNat_of_nonneg (le_of_lt hb)
  have hfl : ⌊(((n : Int) : ℚ) / (b : ℚ))⌋ = (n : Int) / b := by
    have h := Rat.floor_intCast_div_natCast (n : Int) b.toNat
    have hb2 : ((b.toNat : ℕ) : ℚ) = (b : ℚ) := by exact_mod_cast hcast
    rw [hb2, hcast] at h
    exact h
  rw [goDiv, if_neg hne, hq, hfl]

theorem specDemand_nonneg {J E : Type} (p : WorkerScall J E) (hsp : 0 < p.scallPoint) :
    0 ≤ specDemand p := by
  unfold specDemand
  apply Int.floor_nonneg.mpr
  apply div_nonneg
  · simp [Chan.len]
  · exact_mod_cast le_of_lt hsp

theorem specDemand_setJobs {J E : Type} (p : WorkerScall J E) (js : List J) :
    specDemand (setJobs p js) = ⌊(((js.length : Int) : ℚ) / (p.scallPoint : ℚ))⌋ := rfl

theorem specDemand_ge_of_saturated {J E : Type} (p : WorkerScall J E)
    (hsp : 0 < p.scallPoint) (hq : p.scallPoint * p.maxWorker ≤ p.job.len) :
    p.maxWorker ≤ specDemand p := by
  unfold specDemand
  apply Int.le_floor.mpr
  have hspq : (0 : ℚ) < (p.scallPoint : ℚ) := by exact_mod_cast hsp
  rw [le_div_iff₀ hspq]
  have h : ((p.maxWorker * p.scallPoint : Int) : ℚ) ≤ ((p.job.len : Int) : ℚ) := by
    apply Int.cast_le.mpr
    rw [mul_comm]
    exact hq
  push_cast at h
  exact h

theorem specDemand_eq_zero_of_small {J E : Type} (p : WorkerScall J E)
    (hsp : 0 < p.scallPoint) (hq : p.job.len < p.scallPoint) :
    specDemand p = 0 := by
  unfold specDemand
  rw [Int.floor_eq_iff]
  have hspq : (0 : ℚ) < (p.scallPoint : ℚ) := by exact_mod_cast hsp
  have hlen : (0 : ℚ) ≤ (p.job.len : ℚ) := by
    simp [Chan.len]
  have hlt : (p.job.len : ℚ) < (p.scallPoint : ℚ) := by exact_mod_cast hq
  constructor
  · simpa using div_nonneg hlen (le_of_lt hspq)
  · rw [div_lt_iff₀ hspq]
    simpa using hlt

/-- What `scallup` does on a pool with a positive scale point. -/
theorem scallup_eq {J E : Type} (p : WorkerScall J E) (rt : Runtime)
    (hsp : 0 < p.scallPoint) :
    scallup p rt =
      if specDemand p < p.maxWorker ∧ specDemand p > p.currentEmp ∧
          p.currentEmp < p.maxWorker then
        some ({ p with cancelFuncs := p.cancelFuncs ++ [{ ctx := rt.ctxCount }]
                       currentEmp := p.currentEmp + 1 },
              { rt with ctxCount := rt.ctxCount + 1
                        goroutines := rt.goroutines ++
                          [Goroutine.worker rt.ctxCount (p.currentEmp + 1)] })
      else some (p, rt) := by
  have h := goDiv_len_eq_floor p.job.buf.length p.scallPoint hsp
  unfold scallup specDemand Chan.len
  rw [h]

/-- What `scallDown` does on a pool with a positive scale point. -/
theorem scallDown_eq {J E : Type} (p : WorkerScall J E) (rt : Runtime)
    (hsp : 0 < p.scallPoint) :
    scallDown p rt =
      if specDemand p < p.currentEmp ∧ p.currentEmp > p.minWorker then
        match p.cancelFuncs.getLast? with
        | none => none
        | some lLeastWorker =>
          some ({ p with cancelFuncs := p.cancelFuncs.dropLast
                         currentEmp := p.currentEmp - 1 },
                { rt with cancelled := rt.cancelled ++ [lLeastWorker.ctx] })
      else some (p, rt) := by
  have h := goDiv_len_eq_floor p.job.buf.length p.scallPoint hsp
  unfold scallDown specDemand Chan.len
  rw [h]

theorem wrapInt_of_small (x : Int) (h0 : 0 ≤ x) (h1 : x < 9223372036854775808) :
    wrapInt x = x := by
  unfold wrapInt
  omega

theorem wrapInt_of_large (x : Int) (h0 : 9223372036854775808 ≤ x)
    (h1 : x < 18446744073709551616) : wrapInt x < 0 := by
  unfold wrapInt
  omega

theorem CreateScall_of_valid {J E : Type} (lim : Limits) (rt : Runtime)
    (cycle min max q sp : Int) (f : J → E) (flag : Bool)
    (h : ValidConfig cycle min max q sp) (hfit : Fits lim q flag) :
    CreateScall lim rt cycle min max q sp f flag =
      Outcome.ret (freshPool cycle min max q sp f flag,
        { rt with goroutines := rt.goroutines ++ [Goroutine.scaler] }) := by
  obtain ⟨h1, h2, h3, h4, h5, h6⟩ := h
  obtain ⟨hj, hr⟩ := hfit
  have hq : Int.tdiv q 2 = q / 2 := Int.tdiv_eq_ediv (by omega) (by decide)
  have c1 : ¬ min < 1 := by omega
  have c2 : ¬ max ≤ min := by omega
  have c3 : ¬ q < 100 := by omega
  have c4 : ¬ (sp < 10 ∨ sp > q / 2) := by omega
  have c5 : ¬ cycle < 5 * timeSecond := by omega
  have c6 : ¬ (q < 0 ∨ lim.jobMax < q) := by omega
  unfold CreateScall makeChan freshPool
  rw [hq, if_neg c1, if_neg c2, if_neg c3, if_neg c4, if_neg c5, if_neg c6]
  cases flag
  · simp
  · obtain ⟨hr1, hr2⟩ := hr rfl
    have hw : wrapInt (q * 2) = q * 2 := wrapInt_of_small (q * 2) (by omega) (by omega)
    have c7 : ¬ (q * 2 < 0 ∨ lim.resMax < q * 2) := by omega
    simp only [hw, if_true, if_neg c7]

theorem CreateScall_of_invalid {J E : Type} (lim : Limits) (rt : Runtime)
    (cycle min max q sp : Int) (f : J → E) (flag : Bool)
    (h : ¬ ValidConfig cycle min max q sp) :
    ∃ e, CreateScall lim rt cycle min max q sp f flag = Outcome.fail e := by
  unfold CreateScall
  by_cases c1 : min < 1
  · exact ⟨_, by rw [if_pos c1]⟩
  by_cases c2 : max ≤ min
  · exact ⟨_, by rw [if_neg c1, if_pos c2]⟩
  by_cases c3 : q < 100
  · exact ⟨_, by rw [if_neg c1, if_neg c2, if_pos c3]⟩
  have hq : Int.tdiv q 2 = q / 2 := Int.tdiv_eq_ediv (by omega) (by decide)
  rw [hq]
  by_cases c4 : sp < 10 ∨ sp > q / 2
  · exact ⟨_, by rw [if_neg c1, if_neg c2, if_neg c3, if_pos c4]⟩
  by_cases c5 : cycle < 5 * timeSecond
  · exact ⟨_, by rw [if_neg c1, if_neg c2, if_neg c3, if_neg c4, if_pos c5]⟩
  exact absurd ⟨by omega, by omega, by omega, by omega, by omega, by omega⟩ h

/-- On a configuration that passes the five checks and whose buffers cannot be
made, `CreateScall` faults. -/
theorem CreateScall_of_unfit {J E : Type} (lim : Limits) (rt : Runtime)
    (cycle min max q sp : Int) (f : J → E) (flag : Bool)
    (hq63 : q < 9223372036854775808)
    (h : ValidConfig cycle min max q sp) (hfit : ¬ Fits lim q flag) :
    CreateScall lim rt cycle min max q sp f flag = Outcome.crash := by
  obtain ⟨h1, h2, h3, h4, h5, h6⟩ := h
  have hq : Int.tdiv q 2 = q / 2 := Int.tdiv_eq_ediv (by omega) (by decide)
  have c1 : ¬ min < 1 := by omega
  have c2 : ¬ max ≤ min := by omega
  have c3 : ¬ q < 100 := by omega
  have c4 : ¬ (sp < 10 ∨ sp > q / 2) := by omega
  have c5 : ¬ cycle < 5 * timeSecond := by omega
  unfold CreateScall makeChan
  rw [hq, if_neg c1, if_neg c2, if_neg c3, if_neg c4, if_neg c5]
  by_cases c6 : q < 0 ∨ lim.jobMax < q
  · rw [if_pos c6]
  · rw [if_neg c6]
    cases flag
    · exact absurd ⟨by omega, fun hf => by cases hf⟩ hfit
    · have c7 : wrapInt (q * 2) < 0 ∨ lim.resMax < wrapInt (q * 2) := by
        by_cases hbig : q < 4611686018427387904
        · have hw : wrapInt (q * 2) = q * 2 :=
            wrapInt_of_small (q * 2) (by omega) (by omega)
          rw [hw]
          right
          by_contra hle
          exact hfit ⟨by omega, fun _ => ⟨hbig, by omega⟩⟩
        · left
          exact wrapInt_of_large (q * 2) (by omega) (by omega)
      simp only [if_true, if_pos c7]

/-! ## Construction -/

/-- C1, as stated, fails: the configuration `min = 1`, `max = 2`,
`queueCapacity = 2^62`, `scalePoint = 10`, `cycle = 5 s` with result
collection passes the five checks, yet `CreateScall` (here for element types
of size zero, for which the job channel can be made) returns neither a pool
nor an error: `pQSize*2` wraps to a negative `int` and making the result
channel faults. -/
theorem CreateScall_faults_on_valid_config :
    (1 ≤ (1 : Int) ∧ (1 : Int) < 2 ∧ (100 : Int) ≤ 4611686018427387904 ∧ (10 : Int) ≤ 10 ∧
        (10 : Int) ≤ 4611686018427387904 / 2 ∧ 5 * timeSecond ≤ 5 * timeSecond) ∧
      wrapInt (4611686018427387904 * 2) = -9223372036854775808 ∧
      CreateScall unitLimits bootRuntime (5 * timeSecond) 1 2 4611686018427387904 10
          (id : Unit → Unit) true = Outcome.crash ∧
      ¬ ∃ r, CreateScall unitLimits bootRuntime (5 * timeSecond) 1 2 4611686018427387904 10
          (id : Unit → Unit) true = Outcome.ret r := by
  have hv : ValidConfig (5 * timeSecond) 1 2 4611686018427387904 10 := by
    unfold ValidConfig timeSecond
    omega
  have hc : CreateScall unitLimits bootRuntime (5 * timeSecond) 1 2 4611686018427387904 10
      (id : Unit → Unit) true = Outcome.crash :=
    CreateScall_of_unfit unitLimits bootRuntime (5 * timeSecond) 1 2 4611686018427387904 10
      id true (by omega) hv (fun hfit => by
        have := (hfit.2 rfl).1
        omega)
  refine ⟨hv, by unfold wrapInt; omega, hc, ?_⟩
  rintro ⟨r, hr⟩
  rw [hc] at hr
  cases hr

/-- C1, amended: for every input whose queue capacity is an `int`,
`CreateScall` returns a pool (and no error) exactly when `min ≥ 1`,
`max > min`, `queueCapacity ≥ 100`, `10 ≤ scalePoint ≤ queueCapacity / 2`,
`cycle ≥ 5 s` and the buffers can be made (`queueCapacity` within the limit
for a job channel and, with result collection, `queueCapacity < 2^62` and
`2 * queueCapacity` within the limit for a result channel).  When one of the
five checks fails it returns an error and no pool; when the checks pass and a
buffer cannot be made it faults.  In particular `min = 0`, `max = min`,
`queueCapacity = 99`, `scalePoint = 5`, `scalePoint > queueCapacity / 2` and
`cycle = 4 s` are each rejected with an error. -/
theorem CreateScall_outcome {J E : Type} (lim : Limits) (rt : Runtime)
    (cycle min max q sp : Int) (f : J → E) (flag : Bool)
    (hq63 : q < 9223372036854775808) :
    ((∃ r, CreateScall lim rt cycle min max q sp f flag = Outcome.ret r) ↔
        ((1 ≤ min ∧ min < max ∧ 100 ≤ q ∧ 10 ≤ sp ∧ sp ≤ q / 2 ∧
            5 * timeSecond ≤ cycle) ∧
          q ≤ lim.jobMax ∧
          (flag = true → q < 4611686018427387904 ∧ q * 2 ≤ lim.resMax))) ∧
      ((1 ≤ min ∧ min < max ∧ 100 ≤ q ∧ 10 ≤ sp ∧ sp ≤ q / 2 ∧
          5 * timeSecond ≤ cycle) ∨
        ∃ e, CreateScall lim rt cycle min max q sp f flag = Outcome.fail e) ∧
      (¬ (1 ≤ min ∧ min < max ∧ 100 ≤ q ∧ 10 ≤ sp ∧ sp ≤ q / 2 ∧
            5 * timeSecond ≤ cycle) ∨
        (q ≤ lim.jobMax ∧
          (flag = true → q < 4611686018427387904 ∧ q * 2 ≤ lim.resMax)) ∨
        CreateScall lim rt cycle min max q sp f flag = Outcome.crash) ∧
      (∃ e, CreateScall lim rt cycle 0 max q sp f flag = Outcome.fail e) ∧
      (∃ e, CreateScall lim rt cycle min min q sp f flag = Outcome.fail e) ∧
      (∃ e, CreateScall lim rt cycle min max 99 sp f flag = Outcome.fail e) ∧
      (∃ e, CreateScall lim rt cycle min max q 5 f flag = Outcome.fail e) ∧
      (sp ≤ q / 2 ∨ ∃ e, CreateScall lim rt cycle min max q sp f flag = Outcome.fail e) ∧
      (∃ e, CreateScall lim rt (4 * timeSecond) min max q sp f flag = Outcome.fail e) := by
  have key : ∀ (c mn mx qq s : Int),
      ValidConfig c mn mx qq s ∨
        ∃ e, CreateScall lim rt c mn mx qq s f flag = Outcome.fail e := by
    intro c mn mx qq s
    by_cases hv : ValidConfig c mn mx qq s
    · exact Or.inl hv
    · exact Or.inr (CreateScall_of_invalid lim rt c mn mx qq s f flag hv)
  have rej : ∀ (c mn mx qq s : Int), ¬ ValidConfig c mn mx qq s →
      ∃ e, CreateScall lim rt c mn mx qq s f flag = Outcome.fail e :=
    fun c mn mx qq s hv => CreateScall_of_invalid lim rt c mn mx qq s f flag hv
  refine ⟨⟨?_, ?_⟩, key cycle min max q sp, ?_, ?_, ?_, ?_, ?_, ?_, ?_⟩
  · rintro ⟨r, hr⟩
    rcases key cycle min max q sp with hv | ⟨e, he⟩
    · refine ⟨hv, ?_⟩
      by_contra hfit
      have hfit' : ¬ Fits lim q flag := hfit
      rw [CreateScall_of_unfit lim rt cycle min max q sp f flag hq63 hv hfit'] at hr
      cases hr
    · rw [he] at hr
      cases hr
  · rintro ⟨hv, hfit⟩
    exact ⟨_, CreateScall_of_valid lim rt cycle min max q sp f flag hv hfit⟩
  · by_cases hv : ValidConfig cycle min max q sp
    · by_cases hfit : Fits lim q flag
      · exact Or.inr (Or.inl hfit)
      · exact Or.inr (Or.inr
          (CreateScall_of_unfit lim rt cycle min max q sp f flag hq63 hv hfit))
    · exact Or.inl hv
  · exact rej _ _ _ _ _ (fun hv => by have := hv.1; omega)
  · exact rej _ _ _ _ _ (fun hv => by have := hv.2.1; omega)
  · exact rej _ _ _ _ _ (fun hv => by have := hv.2.2.1; omega)
  · exact rej _ _ _ _ _ (fun hv => by have := hv.2.2.2.1; omega)
  · by_cases hs : sp ≤ q / 2
    · exact Or.inl hs
    · exact Or.inr (rej _ _ _ _ _ (fun hv => hs hv.2.2.2.2.1))
  · exact rej _ _ _ _ _ (fun hv => by
      have := hv.2.2.2.2.2
      unfold timeSecond at this
      omega)

/-- Witness for the outcome of `CreateScall`: the spec's end-to-end
configuration with result collection, for element types of size zero. -/
theorem CreateScall_outcome_witness :
    (200 : Int) < 9223372036854775808 ∧
      ∃ r, CreateScall unitLimits bootRuntime (5 * timeSecond) 2 10 200 20
          (id : Unit → Unit) true = Outcome.ret r :=
  ⟨by decide,
    (CreateScall_outcome unitLimits bootRuntime (5 * timeSecond) 2 10 200 20
      (id : Unit → Unit) true (by decide)).1.2
      ⟨by unfold timeSecond; decide, by unfold unitLimits; decide,
        fun _ => by unfold unitLimits; decide⟩⟩

theorem fits_unitLimits (q : Int) (flag : Bool) (h : q < 4611686018427387904) :
    Fits unitLimits q flag := by
  unfold Fits unitLimits
  constructor
  · show q ≤ 9223372036854775807
    omega
  · intro _
    constructor
    · exact h
    · show q * 2 ≤ 9223372036854775807
      omega

theorem fits_demoLimits (q : Int) (flag : Bool) (h : q ≤ 500000) :
    Fits demoLimits q flag := by
  unfold Fits demoLimits
  constructor
  · show q ≤ 1000000
    omega
  · intro _
    constructor
    · omega
    · show q * 2 ≤ 1000000
      omega

/-! ## The scaler -/

theorem scallup_of_cond {J E : Type} (p : WorkerScall J E) (rt : Runtime)
    (hsp : 0 < p.scallPoint)
    (hc : specDemand p < p.maxWorker ∧ specDemand p > p.currentEmp ∧
      p.currentEmp < p.maxWorker) :
    scallup p rt =
      some ({ p with cancelFuncs := p.cancelFuncs ++ [{ ctx := rt.ctxCount }]
                     currentEmp := p.currentEmp + 1 },
            { rt with ctxCount := rt.ctxCount + 1
                      goroutines := rt.goroutines ++
                        [Goroutine.worker rt.ctxCount (p.currentEmp + 1)] }) := by
  rw [scallup_eq p rt hsp, if_pos hc]

theorem scallup_of_not_cond {J E : Type} (p : WorkerScall J E) (rt : Runtime)
    (hsp : 0 < p.scallPoint)
    (hc : ¬ (specDemand p < p.maxWorker ∧ specDemand p > p.currentEmp ∧
      p.currentEmp < p.maxWorker)) :
    scallup p rt = some (p, rt) := by
  rw [scallup_eq p rt hsp, if_neg hc]

theorem scallDown_of_cond {J E : Type} (p : WorkerScall J E) (rt : Runtime)
    (hsp : 0 < p.scallPoint)
    (hc : specDemand p < p.currentEmp ∧ p.currentEmp > p.minWorker)
    (pre : List CancelFunc) (last : CancelFunc) (hl : p.cancelFuncs = pre ++ [last]) :
    scallDown p rt =
      some ({ p with cancelFuncs := pre, currentEmp := p.currentEmp - 1 },
            { rt with cancelled := rt.cancelled ++ [last.ctx] }) := by
  rw [scallDown_eq p rt hsp, if_pos hc, hl]
  simp

theorem scallDown_of_not_cond {J E : Type} (p : WorkerScall J E) (rt : Runtime)
    (hsp : 0 < p.scallPoint)
    (hc : ¬ (specDemand p < p.currentEmp ∧ p.currentEmp > p.minWorker)) :
    scallDown p rt = some (p, rt) := by
  rw [scallDown_eq p rt hsp, if_neg hc]

theorem exists_concat_of_ne_nil {α : Type} (l : List α) (h : l ≠ []) :
    ∃ pre last, l = pre ++ [last] :=
  ⟨l.dropLast, l.getLast h, (List.dropLast_append_getLast h).symm⟩

/-- One call of `scallup` on a pool with a positive scale point: it returns,
and what it can change. -/
theorem scallup_step {J E : Type} (p : WorkerScall J E) (rt : Runtime)
    (hsp : 0 < p.scallPoint) :
    ∃ p1 rt1, scallup p rt = some (p1, rt1) ∧ SameConfig p p1 ∧
      ((p.cancelFuncs.length : Int) = p.currentEmp →
        (p1.cancelFuncs.length : Int) = p1.currentEmp) ∧
      (p.currentEmp < p.maxWorker → p1.currentEmp < p1.maxWorker) ∧
      p.currentEmp ≤ p1.currentEmp ∧ p1.currentEmp ≤ p.currentEmp + 1 ∧
      (∃ started, started.length ≤ 1 ∧ rt1.goroutines = rt.goroutines ++ started) ∧
      rt1.cancelled = rt.cancelled := by
  by_cases hc : specDemand p < p.maxWorker ∧ specDemand p > p.currentEmp ∧
      p.currentEmp < p.maxWorker
  · refine ⟨_, _, scallup_of_cond p rt hsp hc, ⟨rfl, rfl, rfl, rfl⟩, ?_, ?_, ?_, ?_,
      ⟨[Goroutine.worker rt.ctxCount (p.currentEmp + 1)], by simp, rfl⟩, rfl⟩
    · intro hlen
      simp only [List.length_append, List.length_singleton, Nat.cast_add, Nat.cast_one]
      omega
    · intro _
      show p.currentEmp + 1 < p.maxWorker
      omega
    · show p.currentEmp ≤ p.currentEmp + 1
      omega
    · exact le_refl _
  · exact ⟨_, _, scallup_of_not_cond p rt hsp hc, ⟨rfl, rfl, rfl, rfl⟩, id, id,
      le_refl _, by omega, ⟨[], by simp, by simp⟩, rfl⟩

/-- One call of `scallDown` on a pool with a positive scale point and one
handle per counted worker: it returns, and what it can change. -/
theorem scallDown_step {J E : Type} (p : WorkerScall J E) (rt : Runtime)
    (hsp : 0 < p.scallPoint) (hlen : (p.cancelFuncs.length : Int) = p.currentEmp) :
    ∃ p1 rt1, scallDown p rt = some (p1, rt1) ∧ SameConfig p p1 ∧
      (p1.cancelFuncs.length : Int) = p1.currentEmp ∧
      (p.currentEmp < p.maxWorker → p1.currentEmp < p1.maxWorker) ∧
      p.currentEmp - 1 ≤ p1.currentEmp ∧ p1.currentEmp ≤ p.currentEmp ∧
      (p.minWorker ≤ p.currentEmp → p1.minWorker ≤ p1.currentEmp) ∧
      rt1.goroutines = rt.goroutines ∧
      (∃ stopped, stopped.length ≤ 1 ∧ rt1.cancelled = rt.cancelled ++ stopped) := by
  by_cases hc : specDemand p < p.currentEmp ∧ p.currentEmp > p.minWorker
  · have hd := specDemand_nonneg p hsp
    have hne : p.cancelFuncs ≠ [] := by
      intro h0
      rw [h0] at hlen
      simp at hlen
      omega
    obtain ⟨pre, last, hl⟩ := exists_concat_of_ne_nil p.cancelFuncs hne
    have hpre : (pre.length : Int) = p.currentEmp - 1 := by
      rw [hl] at hlen
      simp only [List.length_append, List.length_singleton, Nat.cast_add, Nat.cast_one] at hlen
      omega
    refine ⟨_, _, scallDown_of_cond p rt hsp hc pre last hl, ⟨rfl, rfl, rfl, rfl⟩, hpre,
      ?_, le_refl _, ?_, ?_, rfl, ⟨[last.ctx], by simp, rfl⟩⟩
    · intro h
      show p.currentEmp - 1 < p.maxWorker
      omega
    · show p.currentEmp - 1 ≤ p.currentEmp
      omega
    · intro _
      show p.minWorker ≤ p.currentEmp - 1
      omega
  · exact ⟨_, _, scallDown_of_not_cond p rt hsp hc, ⟨rfl, rfl, rfl, rfl⟩, hlen, id,
      by omega, le_refl _, id, rfl, ⟨[], by simp, by simp⟩⟩

/-- One tick on a pool with a positive scale point and one handle per counted
worker: it returns, and what it can change. -/
theorem tick_step {J E : Type} (p : WorkerScall J E) (rt : Runtime) (js1 js2 : List J)
    (hsp : 0 < p.scallPoint) (hlen : (p.cancelFuncs.length : Int) = p.currentEmp) :
    ∃ p1 rt1, tick p rt js1 js2 = some (p1, rt1) ∧ SameConfig p p1 ∧
      (p1.cancelFuncs.length : Int) = p1.currentEmp ∧
      (p.currentEmp < p.maxWorker → p1.currentEmp < p1.maxWorker) ∧
      p.currentEmp - 1 ≤ p1.currentEmp ∧ p1.currentEmp ≤ p.currentEmp + 1 ∧
      (p.minWorker ≤ p.currentEmp → p1.minWorker ≤ p1.currentEmp) ∧
      (∃ started, started.length ≤ 1 ∧ rt1.goroutines = rt.goroutines ++ started) ∧
      (∃ stopped, stopped.length ≤ 1 ∧ rt1.cancelled = rt.cancelled ++ stopped) := by
  obtain ⟨pa, rta, hup, ⟨ca1, ca2, ca3, ca4⟩, halen, hamax, hage, hale, hast, hacan⟩ :=
    scallup_step (setJobs p js1) rt hsp
  have hasp : 0 < (setJobs pa js2).scallPoint := by
    show 0 < pa.scallPoint
    rw [ca3]
    exact hsp
  obtain ⟨pb, rtb, hdown, ⟨cb1, cb2, cb3, cb4⟩, hblen, hbmax, hbge, hble, hbmin, hbst, hbcan⟩ :=
    scallDown_step (setJobs pa js2) rta hasp (halen hlen)
  have e1 : (setJobs p js1).currentEmp = p.currentEmp := rfl
  have e2 : (setJobs pa js2).currentEmp = pa.currentEmp := rfl
  have e3 : (setJobs p js1).maxWorker = p.maxWorker := rfl
  have e4 : (setJobs pa js2).maxWorker = pa.maxWorker := rfl
  have e5 : (setJobs p js1).minWorker = p.minWorker := rfl
  have e6 : (setJobs pa js2).minWorker = pa.minWorker := rfl
  have e7 : (setJobs p js1).scallPoint = p.scallPoint := rfl
  have e8 : (setJobs pa js2).scallPoint = pa.scallPoint := rfl
  have e9 : (setJobs p js1).clinetSize = p.clinetSize := rfl
  have e10 : (setJobs pa js2).clinetSize = pa.clinetSize := rfl
  rw [e1] at hage hale hamax
  rw [e2] at hbge hble hbmax hbmin
  rw [e3] at hamax ca2
  rw [e4] at hbmax cb2
  rw [e5] at ca1
  rw [e6] at hbmin cb1
  rw [e7] at ca3
  rw [e8] at cb3
  rw [e9] at ca4
  rw [e10] at cb4
  refine ⟨pb, rtb, ?_, ⟨by rw [cb1, ca1], by rw [cb2, ca2], by rw [cb3, ca3], by rw [cb4, ca4]⟩,
    hblen, fun h => hbmax (hamax h), by omega, by omega, ?_, ?_, ?_⟩
  · unfold tick
    rw [hup]
    exact hdown
  · intro h
    apply hbmin
    rw [ca1]
    omega
  · rw [hbst]
    exact hast
  · rw [← hacan]
    exact hbcan

theorem freshPool_inv {J E : Type} (cycle min max q sp : Int) (f : J → E) (flag : Bool)
    (h : ValidConfig cycle min max q sp) :
    ScalerInv (freshPool cycle min max q sp f flag) := by
  obtain ⟨h1, h2, _, h4, _, _⟩ := h
  refine ⟨?_, ?_, ?_⟩
  · show 0 < sp
    omega
  · rfl
  · show (0 : Int) < max
    omega

/-- Every sequence of scaler calls runs without a fault from a pool that
satisfies the invariant, and ends in such a pool. -/
theorem runCalls_inv {J E : Type} (calls : List (ScalerCall × List J)) :
    ∀ (p : WorkerScall J E) (rt : Runtime), ScalerInv p →
      ∃ p1 rt1, runCalls p rt calls = some (p1, rt1) ∧ ScalerInv p1 ∧ SameConfig p p1 := by
  induction calls with
  | nil =>
    intro p rt hinv
    exact ⟨p, rt, rfl, hinv, ⟨rfl, rfl, rfl, rfl⟩⟩
  | cons hd rest ih =>
    intro p rt hinv
    obtain ⟨c, js⟩ := hd
    obtain ⟨hsp, hlen, hmax⟩ := hinv
    have hstep : ∃ pa rta, callScaler c (setJobs p js) rt = some (pa, rta) ∧
        ScalerInv pa ∧ SameConfig p pa := by
      cases c with
      | up =>
        obtain ⟨pa, rta, hup, hcfg, halen, hamax, _⟩ := scallup_step (setJobs p js) rt hsp
        exact ⟨pa, rta, hup, ⟨by rw [hcfg.2.2.1]; exact hsp, halen hlen, hamax hmax⟩, hcfg⟩
      | down =>
        obtain ⟨pa, rta, hdown, hcfg, halen, hamax, _⟩ :=
          scallDown_step (setJobs p js) rt hsp hlen
        exact ⟨pa, rta, hdown, ⟨by rw [hcfg.2.2.1]; exact hsp, halen, hamax hmax⟩, hcfg⟩
    obtain ⟨pa, rta, hcall, hainv, ⟨c1, c2, c3, c4⟩⟩ := hstep
    obtain ⟨pb, rtb, hrun, hbinv, ⟨d1, d2, d3, d4⟩⟩ := ih pa rta hainv
    refine ⟨pb, rtb, ?_, hbinv,
      ⟨d1.trans c1, d2.trans c2, d3.trans c3, d4.trans c4⟩⟩
    simp only [runCalls, hcall]
    exact hrun

/-- Every sequence of ticks runs without a fault from a pool that satisfies
the invariant, ends in such a pool, and keeps `minWorker ≤ currentEmp` once it
holds. -/
theorem runTicks_inv {J E : Type} (obs : List (List J × List J)) :
    ∀ (p : WorkerScall J E) (rt : Runtime), ScalerInv p →
      ∃ p1 rt1, runTicks p rt obs = some (p1, rt1) ∧ ScalerInv p1 ∧ SameConfig p p1 ∧
        (p.minWorker ≤ p.currentEmp → p1.minWorker ≤ p1.currentEmp) := by
  induction obs with
  | nil =>
    intro p rt hinv
    exact ⟨p, rt, rfl, hinv, ⟨rfl, rfl, rfl, rfl⟩, id⟩
  | cons hd rest ih =>
    intro p rt hinv
    obtain ⟨js1, js2⟩ := hd
    obtain ⟨hsp, hlen, hmax⟩ := hinv
    obtain ⟨pa, rta, htick, ⟨c1, c2, c3, c4⟩, halen, hamax, _, _, hamin, _⟩ :=
      tick_step p rt js1 js2 hsp hlen
    have hainv : ScalerInv pa := ⟨by rw [c3]; exact hsp, halen, hamax hmax⟩
    obtain ⟨pb, rtb, hrun, hbinv, ⟨d1, d2, d3, d4⟩, hbmin⟩ := ih pa rta hainv
    refine ⟨pb, rtb, ?_, hbinv,
      ⟨d1.trans c1, d2.trans c2, d3.trans c3, d4.trans c4⟩, fun h => hbmin (hamin h)⟩
    simp only [runTicks, htick]
    exact hrun

/-- C2: scale-up rule.  With `demand = ⌊queueLength / scalePoint⌋`: if
`demand < maxWorkers`, `demand > currentWorkers` and
`currentWorkers < maxWorkers`, `scallup` starts exactly one worker, with
ordinal `currentWorkers + 1`, appends that worker's cancellation handle at the
end of the handle list and adds 1 to `currentWorkers`; otherwise it starts
nothing and leaves the pool unchanged. -/
theorem scallup_rule {J E : Type} (p : WorkerScall J E) (rt : Runtime)
    (hsp : 0 < p.scallPoint) :
    ((specDemand p < p.maxWorker ∧ specDemand p > p.currentEmp ∧
          p.currentEmp < p.maxWorker) →
        scallup p rt =
          some ({ p with cancelFuncs := p.cancelFuncs ++ [{ ctx := rt.ctxCount }]
                         currentEmp := p.currentEmp + 1 },
                { rt with ctxCount := rt.ctxCount + 1
                          goroutines := rt.goroutines ++
                            [Goroutine.worker rt.ctxCount (p.currentEmp + 1)] })) ∧
      (¬ (specDemand p < p.maxWorker ∧ specDemand p > p.currentEmp ∧
          p.currentEmp < p.maxWorker) →
        scallup p rt = some (p, rt)) :=
  ⟨scallup_of_cond p rt hsp, scallup_of_not_cond p rt hsp⟩

/-- C3: scale-down rule (LIFO).  On a pool with a non-empty handle list, with
`demand = ⌊queueLength / scalePoint⌋`: if `demand < currentWorkers` and
`currentWorkers > minWorkers`, `scallDown` invokes the last handle of the list
and no other, removes exactly that last element (the remaining prefix keeps
its order) and subtracts 1 from `currentWorkers`; otherwise it cancels nothing
and leaves the pool unchanged. -/
theorem scallDown_rule {J E : Type} (p : WorkerScall J E) (rt : Runtime)
    (hsp : 0 < p.scallPoint) (hne : p.cancelFuncs ≠ []) :
    ((specDemand p < p.currentEmp ∧ p.currentEmp > p.minWorker) →
        ∃ pre last, p.cancelFuncs = pre ++ [last] ∧
          scallDown p rt =
            some ({ p with cancelFuncs := pre, currentEmp := p.currentEmp - 1 },
                  { rt with cancelled := rt.cancelled ++ [last.ctx] })) ∧
      (¬ (specDemand p < p.currentEmp ∧ p.currentEmp > p.minWorker) →
        scallDown p rt = some (p, rt)) := by
  refine ⟨fun hc => ?_, scallDown_of_not_cond p rt hsp⟩
  obtain ⟨pre, last, hl⟩ := exists_concat_of_ne_nil p.cancelFuncs hne
  exact ⟨pre, last, hl, scallDown_of_cond p rt hsp hc pre last hl⟩

/-- Witness for the scale-up rule: `demoPool`. -/
theorem scallup_rule_witness :
    0 < demoPool.scallPoint ∧
      ((specDemand demoPool < demoPool.maxWorker ∧
            specDemand demoPool > demoPool.currentEmp ∧
            demoPool.currentEmp < demoPool.maxWorker) →
          scallup demoPool demoRuntime =
            some ({ demoPool with
                      cancelFuncs := demoPool.cancelFuncs ++ [{ ctx := demoRuntime.ctxCount }]
                      currentEmp := demoPool.currentEmp + 1 },
                  { demoRuntime with
                      ctxCount := demoRuntime.ctxCount + 1
                      goroutines := demoRuntime.goroutines ++
                        [Goroutine.worker demoRuntime.ctxCount (demoPool.currentEmp + 1)] })) :=
  ⟨by decide, (scallup_rule demoPool demoRuntime (by decide)).1⟩

/-- Witness for the scale-down rule: on `threePool` (three workers, empty
queue, `min = 2`) the condition holds and the last handle, that of the worker
started last, is invoked and popped; on `demoPool` (`currentWorkers = min`)
nothing changes. -/
theorem scallDown_rule_witness :
    (0 < threePool.scallPoint ∧ threePool.cancelFuncs ≠ [] ∧
        (specDemand threePool < threePool.currentEmp ∧
          threePool.currentEmp > threePool.minWorker) ∧
        ∃ pre last, threePool.cancelFuncs = pre ++ [last] ∧
          scallDown threePool threeRuntime =
            some ({ threePool with cancelFuncs := pre
                                   currentEmp := threePool.currentEmp - 1 },
                  { threeRuntime with cancelled := threeRuntime.cancelled ++ [last.ctx] })) ∧
      (0 < demoPool.scallPoint ∧ demoPool.cancelFuncs ≠ [] ∧
        (¬ (specDemand demoPool < demoPool.currentEmp ∧
              demoPool.currentEmp > demoPool.minWorker) →
            scallDown demoPool demoRuntime = some (demoPool, demoRuntime))) := by
  have hd : specDemand threePool = 0 :=
    specDemand_eq_zero_of_small threePool (by decide) (by decide)
  have hc : specDemand threePool < threePool.currentEmp ∧
      threePool.currentEmp > threePool.minWorker := by
    rw [hd]
    decide
  exact ⟨⟨by decide, by decide, hc,
      (scallDown_rule threePool threeRuntime (by decide) (by decide)).1 hc⟩,
    ⟨by decide, by decide,
      (scallDown_rule demoPool demoRuntime (by decide) (by decide)).2⟩⟩

/-- C6: scale-down never takes `currentWorkers` below `minWorkers`.  On a pool
with `currentWorkers ≥ minWorkers`, whatever the queue length, `scallDown`
returns a pool that still has `currentWorkers ≥ minWorkers`; and when
`currentWorkers ≤ minWorkers` it changes nothing. -/
theorem scallDown_keeps_min {J E : Type} (p : WorkerScall J E) (rt : Runtime)
    (hsp : 0 < p.scallPoint) (hlen : (p.cancelFuncs.length : Int) = p.currentEmp) :
    (p.minWorker ≤ p.currentEmp →
        ∃ p1 rt1, scallDown p rt = some (p1, rt1) ∧ p1.minWorker = p.minWorker ∧
          p1.minWorker ≤ p1.currentEmp) ∧
      (p.currentEmp ≤ p.minWorker → scallDown p rt = some (p, rt)) := by
  constructor
  · intro hmin
    obtain ⟨p1, rt1, hdown, hcfg, _, _, _, _, hkeep, _⟩ := scallDown_step p rt hsp hlen
    exact ⟨p1, rt1, hdown, hcfg.1, hkeep hmin⟩
  · intro hle
    exact scallDown_of_not_cond p rt hsp (fun hc => by omega)

/-- Witness for the lower bound of scale-down: `demoPool` with an empty queue. -/
theorem scallDown_keeps_min_witness :
    0 < (setJobs demoPool []).scallPoint ∧
      ((setJobs demoPool []).cancelFuncs.length : Int) = (setJobs demoPool []).currentEmp ∧
      (setJobs demoPool []).currentEmp ≤ (setJobs demoPool []).minWorker ∧
      scallDown (setJobs demoPool []) demoRuntime = some (setJobs demoPool [], demoRuntime) :=
  ⟨by decide, by decide, by decide,
    (scallDown_keeps_min (setJobs demoPool []) demoRuntime (by decide) (by decide)).2
      (by decide)⟩

/-- C7: rate limit.  One tick (`scallup` seeing one queue, then `scallDown`
seeing another) starts at most one worker and cancels at most one worker, and
`currentWorkers` after the tick differs from its value before by at most 1,
however long the queues are. -/
theorem tick_rate_limit {J E : Type} (p : WorkerScall J E) (rt : Runtime)
    (js1 js2 : List J)
    (hsp : 0 < p.scallPoint) (hlen : (p.cancelFuncs.length : Int) = p.currentEmp) :
    ∃ p1 rt1, tick p rt js1 js2 = some (p1, rt1) ∧
      (∃ started, started.length ≤ 1 ∧ rt1.goroutines = rt.goroutines ++ started) ∧
      (∃ stopped, stopped.length ≤ 1 ∧ rt1.cancelled = rt.cancelled ++ stopped) ∧
      p.currentEmp - 1 ≤ p1.currentEmp ∧ p1.currentEmp ≤ p.currentEmp + 1 := by
  obtain ⟨p1, rt1, htick, _, _, _, hge, hle, _, hst, hcan⟩ :=
    tick_step p rt js1 js2 hsp hlen
  exact ⟨p1, rt1, htick, hst, hcan, hge, hle⟩

/-- Witness for the rate limit: `demoPool` flooded with 100000 jobs, far
more than `scalePoint * maxWorkers = 200`. -/
theorem tick_rate_limit_witness :
    0 < demoPool.scallPoint ∧
      (demoPool.cancelFuncs.length : Int) = demoPool.currentEmp ∧
      ∃ p1 rt1,
        tick demoPool demoRuntime (List.replicate 100000 ()) (List.replicate 100000 ()) =
          some (p1, rt1) ∧
        (∃ started, started.length ≤ 1 ∧
          rt1.goroutines = demoRuntime.goroutines ++ started) ∧
        (∃ stopped, stopped.length ≤ 1 ∧
          rt1.cancelled = demoRuntime.cancelled ++ stopped) ∧
        demoPool.currentEmp - 1 ≤ p1.currentEmp ∧ p1.currentEmp ≤ demoPool.currentEmp + 1 :=
  ⟨by decide, by decide,
    tick_rate_limit demoPool demoRuntime (List.replicate 100000 ())
      (List.replicate 100000 ()) (by decide) (by decide)⟩

/-! ## The capacity probe -/

/-- C8: `IsSpaceIn` returns true exactly when the length of the job queue plus
`currentWorkers` is below `queueCapacity`, and it leaves the pool as it was. -/
theorem IsSpaceIn_iff {J E : Type} (p : WorkerScall J E) :
    ((IsSpaceIn p).1 = true ↔
        (p.job.buf.length : Int) + p.currentEmp < p.clinetSize) ∧
      (IsSpaceIn p).2 = p := by
  simp [IsSpaceIn, Chan.len]

/-! ## Reachable states -/

/-- C4, as stated, fails: on the valid configuration `min = 2`, `max = 10`,
`queueCapacity = 200`, `scalePoint = 20`, `cycle = 5 s`, the pool returned by
`CreateScall` has `currentWorkers = 0 < minWorkers` after one tick with an
empty queue. -/
theorem fresh_pool_below_min_after_tick :
    ValidConfig (5 * timeSecond) 2 10 200 20 ∧
      ∃ p0 rt0 p1 rt1,
        CreateScall unitLimits bootRuntime (5 * timeSecond) 2 10 200 20 (id : Unit → Unit) false =
          Outcome.ret (p0, rt0) ∧
        runTicks p0 rt0 [([], [])] = some (p1, rt1) ∧
        p1.currentEmp = 0 ∧ p1.minWorker = 2 ∧
        ¬ (p1.minWorker ≤ p1.currentEmp ∧ p1.currentEmp ≤ p1.maxWorker) := by
  refine ⟨by unfold ValidConfig timeSecond; decide,
    freshPool (5 * timeSecond) 2 10 200 20 id false,
    { bootRuntime with goroutines := bootRuntime.goroutines ++ [Goroutine.scaler] },
    freshPool (5 * timeSecond) 2 10 200 20 id false,
    { bootRuntime with goroutines := bootRuntime.goroutines ++ [Goroutine.scaler] },
    ?_, rfl, rfl, rfl, by decide⟩
  exact CreateScall_of_valid unitLimits bootRuntime (5 * timeSecond) 2 10 200 20 id false
    (by unfold ValidConfig timeSecond; decide) (fits_unitLimits 200 false (by decide))

/-- C4, amended: for every valid configuration, every sequence of ticks (with
any queue lengths at each evaluation) runs from the pool returned by
`CreateScall` and ends in a state with `0 ≤ currentWorkers ≤ maxWorkers`; and
from any such state, if `minWorkers ≤ currentWorkers` holds it still holds
after every further sequence of ticks. -/
theorem ticks_keep_bounds {J E : Type} (lim : Limits) (rt : Runtime) (cycle min max q sp : Int)
    (f : J → E) (flag : Bool) (hv : ValidConfig cycle min max q sp) (hfit : Fits lim q flag) :
    ∃ p0 rt0, CreateScall lim rt cycle min max q sp f flag = Outcome.ret (p0, rt0) ∧
      ∀ obs : List (List J × List J),
        ∃ p1 rt1, runTicks p0 rt0 obs = some (p1, rt1) ∧
          p1.minWorker = min ∧ p1.maxWorker = max ∧
          0 ≤ p1.currentEmp ∧ p1.currentEmp ≤ p1.maxWorker ∧
          ∀ more : List (List J × List J),
            ∃ p2 rt2, runTicks p1 rt1 more = some (p2, rt2) ∧
              (p1.minWorker ≤ p1.currentEmp → p2.minWorker ≤ p2.currentEmp) := by
  refine ⟨_, _, CreateScall_of_valid lim rt cycle min max q sp f flag hv hfit, fun obs => ?_⟩
  obtain ⟨p1, rt1, hrun, hinv, ⟨c1, c2, _, _⟩, _⟩ :=
    runTicks_inv obs (freshPool cycle min max q sp f flag)
      { rt with goroutines := rt.goroutines ++ [Goroutine.scaler] }
      (freshPool_inv cycle min max q sp f flag hv)
  refine ⟨p1, rt1, hrun, c1, c2, ?_, le_of_lt hinv.2.2, fun more => ?_⟩
  · rw [← hinv.2.1]
    exact Int.ofNat_nonneg _
  · obtain ⟨p2, rt2, hrun2, _, _, hkeep⟩ := runTicks_inv more p1 rt1 hinv
    exact ⟨p2, rt2, hrun2, hkeep⟩

/-- Witness for the amended bounds: the spec's end-to-end configuration. -/
theorem ticks_keep_bounds_witness :
    ValidConfig (5 * timeSecond) 2 10 200 20 ∧
      ∃ p0 rt0,
        CreateScall unitLimits bootRuntime (5 * timeSecond) 2 10 200 20 (id : Unit → Unit) true =
          Outcome.ret (p0, rt0) ∧
        ∃ p1 rt1, runTicks p0 rt0 [(List.replicate 150 (), List.replicate 149 ())] =
            some (p1, rt1) ∧
          0 ≤ p1.currentEmp ∧ p1.currentEmp ≤ p1.maxWorker := by
  have hv : ValidConfig (5 * timeSecond) 2 10 200 20 := by
    unfold ValidConfig timeSecond
    decide
  obtain ⟨p0, rt0, hc, hall⟩ :=
    ticks_keep_bounds unitLimits bootRuntime (5 * timeSecond) 2 10 200 20 (id : Unit → Unit) true hv (fits_unitLimits 200 true (by decide))
  obtain ⟨p1, rt1, hrun, _, _, h0, hmax, _⟩ :=
    hall [(List.replicate 150 (), List.replicate 149 ())]
  exact ⟨hv, p0, rt0, hc, p1, rt1, hrun, h0, hmax⟩

/-- C5: for every valid configuration, every sequence of `scallup` and
`scallDown` calls (with any queue lengths) runs from the pool returned by
`CreateScall` and ends in a state whose handle list has exactly
`currentWorkers` elements. -/
theorem handles_length_eq_currentEmp {J E : Type} (lim : Limits) (rt : Runtime)
    (cycle min max q sp : Int) (f : J → E) (flag : Bool)
    (hv : ValidConfig cycle min max q sp) (hfit : Fits lim q flag) :
    ∃ p0 rt0, CreateScall lim rt cycle min max q sp f flag = Outcome.ret (p0, rt0) ∧
      ∀ calls : List (ScalerCall × List J),
        ∃ p1 rt1, runCalls p0 rt0 calls = some (p1, rt1) ∧
          (p1.cancelFuncs.length : Int) = p1.currentEmp := by
  refine ⟨_, _, CreateScall_of_valid lim rt cycle min max q sp f flag hv hfit, fun calls => ?_⟩
  obtain ⟨p1, rt1, hrun, hinv, _⟩ :=
    runCalls_inv calls (freshPool cycle min max q sp f flag)
      { rt with goroutines := rt.goroutines ++ [Goroutine.scaler] }
      (freshPool_inv cycle min max q sp f flag hv)
  exact ⟨p1, rt1, hrun, hinv.2.1⟩

/-- Witness for the handle count: the spec's end-to-end configuration, two
scale-ups and a scale-down. -/
theorem handles_length_eq_currentEmp_witness :
    ValidConfig (5 * timeSecond) 2 10 200 20 ∧
      ∃ p0 rt0,
        CreateScall unitLimits bootRuntime (5 * timeSecond) 2 10 200 20 (id : Unit → Unit) true =
          Outcome.ret (p0, rt0) ∧
        ∃ p1 rt1,
          runCalls p0 rt0
              [(ScalerCall.up, List.replicate 150 ()), (ScalerCall.up, List.replicate 150 ()),
                (ScalerCall.down, [])] = some (p1, rt1) ∧
            (p1.cancelFuncs.length : Int) = p1.currentEmp := by
  have hv : ValidConfig (5 * timeSecond) 2 10 200 20 := by
    unfold ValidConfig timeSecond
    decide
  obtain ⟨p0, rt0, hc, hall⟩ :=
    handles_length_eq_currentEmp unitLimits bootRuntime (5 * timeSecond) 2 10 200 20
      (id : Unit → Unit) true hv (fits_unitLimits 200 true (by decide))
  obtain ⟨p1, rt1, hrun, hlen⟩ :=
    hall [(ScalerCall.up, List.replicate 150 ()), (ScalerCall.up, List.replicate 150 ()),
      (ScalerCall.down, [])]
  exact ⟨hv, p0, rt0, hc, p1, rt1, hrun, hlen⟩

/-! ## The constructed pool and its errors -/

theorem freshPool_built {J E : Type} (cycle min max q sp : Int) (f : J → E) (flag : Bool) :
    FreshlyBuilt (freshPool cycle min max q sp f flag) cycle min max q sp flag := by
  refine ⟨rfl, rfl, rfl, rfl, rfl, rfl, rfl, rfl, rfl, rfl, ?_, rfl, ?_⟩
  · cases flag <;> rfl
  · intro c hc
    cases flag
    · simp [freshPool] at hc
    · simp only [freshPool, if_true, Option.some.injEq] at hc
      subst hc
      exact ⟨rfl, by show q * 2 = 2 * q; omega, rfl⟩

/-- C9: the pool returned by `CreateScall` on an accepted configuration.  For
every input whose queue capacity is an `int`: on every configuration that
passes the five checks and whose buffers can be made, `CreateScall` returns a
pool, starting only the scaler goroutine; and every pool that `CreateScall`
returns stores `min`, `max`, `queueCapacity`, `scalePoint` and `cycle` as
given, has `currentWorkers = 0` and an empty handle list, an empty job buffer
of capacity `queueCapacity`, and a result buffer exactly when `collectResults`
is true, of capacity exactly `2 * queueCapacity`. -/
theorem CreateScall_fresh_pool {J E : Type} (lim : Limits) (rt : Runtime)
    (cycle min max q sp : Int) (f : J → E) (flag : Bool)
    (hq63 : q < 9223372036854775808) :
    (ValidConfig cycle min max q sp ∧ Fits lim q flag →
        ∃ p, CreateScall lim rt cycle min max q sp f flag =
          Outcome.ret (p, { rt with goroutines := rt.goroutines ++ [Goroutine.scaler] })) ∧
      ∀ (p : WorkerScall J E) (rt1 : Runtime),
        CreateScall lim rt cycle min max q sp f flag = Outcome.ret (p, rt1) →
          rt1 = { rt with goroutines := rt.goroutines ++ [Goroutine.scaler] } ∧
          p.minWorker = min ∧ p.maxWorker = max ∧ p.clinetSize = q ∧ p.scallPoint = sp ∧
          p.Duration = cycle ∧ p.currentEmp = 0 ∧ p.cancelFuncs = [] ∧
          p.job.buf = [] ∧ p.job.cap = q ∧ p.job.closed = false ∧
          p.progress.isSome = flag ∧ p.progressFlag = flag ∧
          (∀ c, p.progress = some c → c.buf = [] ∧ c.cap = 2 * q ∧ c.closed = false) := by
  constructor
  · rintro ⟨hv, hfit⟩
    exact ⟨_, CreateScall_of_valid lim rt cycle min max q sp f flag hv hfit⟩
  · intro p rt1 hc
    by_cases hv : ValidConfig cycle min max q sp
    · by_cases hfit : Fits lim q flag
      · rw [CreateScall_of_valid lim rt cycle min max q sp f flag hv hfit] at hc
        injection hc with hc
        injection hc with h1 h2
        subst h1
        subst h2
        exact ⟨rfl, freshPool_built cycle min max q sp f flag⟩
      · rw [CreateScall_of_unfit lim rt cycle min max q sp f flag hq63 hv hfit] at hc
        cases hc
    · obtain ⟨e, he⟩ := CreateScall_of_invalid lim rt cycle min max q sp f flag hv
      rw [he] at hc
      cases hc

/-- Witness for the constructed pool: the spec's end-to-end configuration with
result collection; the pool is returned and its result buffer has capacity
400. -/
theorem CreateScall_fresh_pool_witness :
    (200 : Int) < 9223372036854775808 ∧
      ∃ p rt1, CreateScall unitLimits bootRuntime (5 * timeSecond) 2 10 200 20
            (id : Unit → Unit) true = Outcome.ret (p, rt1) ∧
        rt1.goroutines = [Goroutine.scaler] ∧
        p.currentEmp = 0 ∧ p.cancelFuncs = [] ∧ p.job.cap = 200 ∧ p.progress.isSome = true ∧
        (∀ c, p.progress = some c → c.buf = [] ∧ c.cap = 2 * 200 ∧ c.closed = false) := by
  have hall := CreateScall_fresh_pool unitLimits bootRuntime (5 * timeSecond) 2 10 200 20
    (id : Unit → Unit) true (by decide)
  obtain ⟨p, hc⟩ := hall.1 ⟨by unfold ValidConfig timeSecond; decide,
    fits_unitLimits 200 true (by decide)⟩
  obtain ⟨h1, _, _, _, _, _, h0, hnil, _, hcap, _, hsome, _, hprog⟩ := hall.2 p _ hc
  exact ⟨by decide, p, _, hc, rfl, h0, hnil, hcap, hsome, hprog⟩

/-- C10, at the failing input: a configuration rejected by the queue-size
check (`queueCapacity = 99`, everything else valid) gets the error text
"q-size must be greater then 10", which names the bound 10 although 99 is
greater than 10 and the check enforces 100; the digits "100" do not occur in
the text. -/
theorem CreateScall_queue_size_error_text :
    CreateScall unitLimits bootRuntime (5 * timeSecond) 1 2 99 10 (id : Unit → Unit) false =
        Outcome.fail "q-size must be greater then 10" ∧
      (10 : Int) < 99 ∧
      ¬ ("100".toList <:+: "q-size must be greater then 10".toList) := by
  refine ⟨rfl, by decide, by decide⟩

/-! ## Further properties of the scaler -/

/-- C18: a saturated queue blocks growth.  On every pool state with queue
length `q ≥ scalePoint * maxWorkers` the demand is at least `maxWorkers`, and
`scallup` starts no worker and leaves the pool (in particular
`currentWorkers` and the handle list) unchanged, whatever `currentWorkers`
is. -/
theorem saturated_queue_blocks_growth {J E : Type} (p : WorkerScall J E) (rt : Runtime)
    (hsp : 0 < p.scallPoint)
    (hq : p.scallPoint * p.maxWorker ≤ (p.job.buf.length : Int)) :
    p.maxWorker ≤ specDemand p ∧ scallup p rt = some (p, rt) := by
  have hd := specDemand_ge_of_saturated p hsp hq
  exact ⟨hd, scallup_of_not_cond p rt hsp (fun hc => by omega)⟩

theorem demoPool_saturated :
    (setJobs demoPool (List.replicate 200 ())).scallPoint *
        (setJobs demoPool (List.replicate 200 ())).maxWorker ≤
      ((setJobs demoPool (List.replicate 200 ())).job.buf.length : Int) := by
  show (20 : Int) * 10 ≤ ((List.replicate 200 ()).length : Int)
  rw [List.length_replicate]
  decide

/-- Witness for the saturated queue: `demoPool` with 200 queued jobs
(`scalePoint * maxWorkers = 200`). -/
theorem saturated_queue_blocks_growth_witness :
    0 < (setJobs demoPool (List.replicate 200 ())).scallPoint ∧
      (setJobs demoPool (List.replicate 200 ())).scallPoint *
          (setJobs demoPool (List.replicate 200 ())).maxWorker ≤
        ((setJobs demoPool (List.replicate 200 ())).job.buf.length : Int) ∧
      scallup (setJobs demoPool (List.replicate 200 ())) demoRuntime =
        some (setJobs demoPool (List.replicate 200 ()), demoRuntime) :=
  ⟨by decide, demoPool_saturated,
    (saturated_queue_blocks_growth (setJobs demoPool (List.replicate 200 ())) demoRuntime
      (by decide) demoPool_saturated).2⟩

/-- C16: the pool never reaches `maxWorkers`.  For every valid configuration,
every sequence of `scallup` and `scallDown` calls runs from the pool returned
by `CreateScall` and ends in a state with `currentWorkers ≤ maxWorkers - 1`;
and there, whenever the quotient computed by `scallup` is below `maxWorkers`
and above `currentWorkers`, the third condition `currentWorkers < maxWorkers`
holds too and `currentWorkers + 1` is at most that quotient. -/
theorem never_reaches_max {J E : Type} (lim : Limits) (rt : Runtime) (cycle min max q sp : Int)
    (f : J → E) (flag : Bool) (hv : ValidConfig cycle min max q sp) (hfit : Fits lim q flag) :
    ∃ p0 rt0, CreateScall lim rt cycle min max q sp f flag = Outcome.ret (p0, rt0) ∧
      ∀ calls : List (ScalerCall × List J),
        ∃ p1 rt1, runCalls p0 rt0 calls = some (p1, rt1) ∧ p1.maxWorker = max ∧
          p1.currentEmp ≤ p1.maxWorker - 1 ∧
          ∀ (js : List J) (lCur : Int),
            goDiv (setJobs p1 js).job.len (setJobs p1 js).scallPoint = some lCur →
            lCur < p1.maxWorker → lCur > p1.currentEmp →
              p1.currentEmp < p1.maxWorker ∧ p1.currentEmp + 1 ≤ lCur := by
  refine ⟨_, _, CreateScall_of_valid lim rt cycle min max q sp f flag hv hfit, fun calls => ?_⟩
  obtain ⟨p1, rt1, hrun, hinv, hcfg⟩ :=
    runCalls_inv calls (freshPool cycle min max q sp f flag)
      { rt with goroutines := rt.goroutines ++ [Goroutine.scaler] }
      (freshPool_inv cycle min max q sp f flag hv)
  have hmax := hinv.2.2
  refine ⟨p1, rt1, hrun, hcfg.2.1, by omega, fun js lCur _ h1 h2 => ⟨by omega, by omega⟩⟩

/-- Witness for the strict upper bound: the spec's end-to-end configuration
and two scale-ups on a queue of 150 jobs. -/
theorem never_reaches_max_witness :
    ValidConfig (5 * timeSecond) 2 10 200 20 ∧
      ∃ p0 rt0,
        CreateScall unitLimits bootRuntime (5 * timeSecond) 2 10 200 20 (id : Unit → Unit) true =
          Outcome.ret (p0, rt0) ∧
        ∃ p1 rt1,
          runCalls p0 rt0
              [(ScalerCall.up, List.replicate 150 ()), (ScalerCall.up, List.replicate 150 ())] =
            some (p1, rt1) ∧
          p1.currentEmp ≤ p1.maxWorker - 1 := by
  have hv : ValidConfig (5 * timeSecond) 2 10 200 20 := by
    unfold ValidConfig timeSecond
    decide
  obtain ⟨p0, rt0, hc, hall⟩ :=
    never_reaches_max unitLimits bootRuntime (5 * timeSecond) 2 10 200 20 (id : Unit → Unit) true hv (fits_unitLimits 200 true (by decide))
  obtain ⟨p1, rt1, hrun, _, hle, _⟩ :=
    hall [(ScalerCall.up, List.replicate 150 ()), (ScalerCall.up, List.replicate 150 ())]
  exact ⟨hv, p0, rt0, hc, p1, rt1, hrun, hle⟩

/-- C19: the scaler cannot fault.  For every valid configuration, every
sequence of `scallup` and `scallDown` calls runs from the pool returned by
`CreateScall` and ends in a state where the divisor `scalePoint` is non-zero
and, for every queue, the quotient is computed, the handle list is non-empty
whenever the condition of `scallDown` holds, and both `scallup` and
`scallDown` return. -/
theorem scaler_cannot_fault {J E : Type} (lim : Limits) (rt : Runtime) (cycle min max q sp : Int)
    (f : J → E) (flag : Bool) (hv : ValidConfig cycle min max q sp) (hfit : Fits lim q flag) :
    ∃ p0 rt0, CreateScall lim rt cycle min max q sp f flag = Outcome.ret (p0, rt0) ∧
      ∀ calls : List (ScalerCall × List J),
        ∃ p1 rt1, runCalls p0 rt0 calls = some (p1, rt1) ∧ p1.scallPoint ≠ 0 ∧
          ∀ js : List J,
            (∃ lCur, goDiv (setJobs p1 js).job.len (setJobs p1 js).scallPoint = some lCur ∧
              (lCur < (setJobs p1 js).currentEmp ∧
                  (setJobs p1 js).currentEmp > (setJobs p1 js).minWorker →
                (setJobs p1 js).cancelFuncs ≠ [])) ∧
            (∃ r, scallup (setJobs p1 js) rt1 = some r) ∧
            (∃ r, scallDown (setJobs p1 js) rt1 = some r) := by
  refine ⟨_, _, CreateScall_of_valid lim rt cycle min max q sp f flag hv hfit, fun calls => ?_⟩
  obtain ⟨p1, rt1, hrun, ⟨hsp, hlen, _⟩, _⟩ :=
    runCalls_inv calls (freshPool cycle min max q sp f flag)
      { rt with goroutines := rt.goroutines ++ [Goroutine.scaler] }
      (freshPool_inv cycle min max q sp f flag hv)
  refine ⟨p1, rt1, hrun, ne_of_gt hsp, fun js => ⟨?_, ?_, ?_⟩⟩
  · refine ⟨_, goDiv_len_eq_floor js.length p1.scallPoint hsp, fun hc h0 => ?_⟩
    have hd : 0 ≤ specDemand (setJobs p1 js) := specDemand_nonneg (setJobs p1 js) hsp
    rw [specDemand_setJobs] at hd
    have h0' : p1.cancelFuncs = [] := h0
    rw [h0'] at hlen
    have hcur : (setJobs p1 js).currentEmp = p1.currentEmp := rfl
    rw [hcur] at hc
    simp at hlen
    omega
  · obtain ⟨pa, rta, h, _⟩ := scallup_step (setJobs p1 js) rt1 hsp
    exact ⟨_, h⟩
  · obtain ⟨pa, rta, h, _⟩ := scallDown_step (setJobs p1 js) rt1 hsp hlen
    exact ⟨_, h⟩

/-- Witness for fault freedom: the spec's end-to-end configuration, a
scale-up on 150 jobs and a scale-down on an empty queue. -/
theorem scaler_cannot_fault_witness :
    ValidConfig (5 * timeSecond) 2 10 200 20 ∧
      ∃ p0 rt0,
        CreateScall unitLimits bootRuntime (5 * timeSecond) 2 10 200 20 (id : Unit → Unit) true =
          Outcome.ret (p0, rt0) ∧
        ∃ p1 rt1,
          runCalls p0 rt0 [(ScalerCall.up, List.replicate 150 ()), (ScalerCall.down, [])] =
            some (p1, rt1) ∧
          p1.scallPoint ≠ 0 ∧ ∃ r, scallDown (setJobs p1 []) rt1 = some r := by
  have hv : ValidConfig (5 * timeSecond) 2 10 200 20 := by
    unfold ValidConfig timeSecond
    decide
  obtain ⟨p0, rt0, hc, hall⟩ :=
    scaler_cannot_fault unitLimits bootRuntime (5 * timeSecond) 2 10 200 20 (id : Unit → Unit) true hv (fits_unitLimits 200 true (by decide))
  obtain ⟨p1, rt1, hrun, hne, hjs⟩ :=
    hall [(ScalerCall.up, List.replicate 150 ()), (ScalerCall.down, [])]
  exact ⟨hv, p0, rt0, hc, p1, rt1, hrun, hne, (hjs []).2.2⟩

/-- Either `scallup` changes nothing, or the demand was above `currentEmp` and
`currentEmp` has grown by 1. -/
theorem scallup_cases {J E : Type} (p : WorkerScall J E) (rt : Runtime)
    (hsp : 0 < p.scallPoint) :
    scallup p rt = some (p, rt) ∨
      ∃ p1 rt1, scallup p rt = some (p1, rt1) ∧ p1.currentEmp = p.currentEmp + 1 ∧
        specDemand p > p.currentEmp ∧ p1.scallPoint = p.scallPoint ∧
        rt1.cancelled = rt.cancelled := by
  by_cases hc : specDemand p < p.maxWorker ∧ specDemand p > p.currentEmp ∧
      p.currentEmp < p.maxWorker
  · exact Or.inr ⟨_, _, scallup_of_cond p rt hsp hc, rfl, hc.2.1, rfl, rfl⟩
  · exact Or.inl (scallup_of_not_cond p rt hsp hc)

/-- A tick whose two evaluations see queues of the same length does not both
start and cancel a worker. -/
theorem tick_same_length {J E : Type} (p : WorkerScall J E) (rt : Runtime)
    (js1 js2 : List J) (hsp : 0 < p.scallPoint)
    (hlen : (p.cancelFuncs.length : Int) = p.currentEmp)
    (hq : js1.length = js2.length) :
    ∃ p1 rt1, tick p rt js1 js2 = some (p1, rt1) ∧
      (rt1.goroutines = rt.goroutines ∨ rt1.cancelled = rt.cancelled) := by
  rcases scallup_cases (setJobs p js1) rt hsp with hup | ⟨pa, rta, hup, hcur, hd, hspa, hcan⟩
  · obtain ⟨p1, rt1, hdown, _, _, _, _, _, _, hg, _⟩ :=
      scallDown_step (setJobs (setJobs p js1) js2) rt hsp hlen
    refine ⟨p1, rt1, ?_, Or.inl hg⟩
    unfold tick
    rw [hup]
    exact hdown
  · have hspa2 : 0 < (setJobs pa js2).scallPoint := by
      show 0 < pa.scallPoint
      rw [hspa]
      exact hsp
    have hdown : scallDown (setJobs pa js2) rta = some (setJobs pa js2, rta) := by
      apply scallDown_of_not_cond (setJobs pa js2) rta hspa2
      intro hc
      have h1 := hc.1
      rw [specDemand_setJobs, hspa] at h1
      rw [specDemand_setJobs, hq] at hd
      have e1 : (setJobs pa js2).currentEmp = pa.currentEmp := rfl
      have e2 : (setJobs p js1).currentEmp = p.currentEmp := rfl
      have e3 : (setJobs p js1).scallPoint = p.scallPoint := rfl
      rw [e1, hcur, e2] at h1
      rw [e2] at hd
      rw [e3] at h1
      omega
    refine ⟨setJobs pa js2, rta, ?_, Or.inr hcan⟩
    unfold tick
    rw [hup]
    exact hdown

/-- C12: within one tick a worker is both added and removed only if the
conditions flip between the two evaluations.  For every valid configuration
and every state reached from the pool returned by `CreateScall` by a sequence
of `scallup` and `scallDown` calls, a tick in which `scallup` and `scallDown`
see the same queue length runs and does not both start and cancel a worker. -/
theorem tick_same_queue_not_both {J E : Type} (lim : Limits) (rt : Runtime) (cycle min max q sp : Int)
    (f : J → E) (flag : Bool) (hv : ValidConfig cycle min max q sp) (hfit : Fits lim q flag)
    (calls : List (ScalerCall × List J)) (js1 js2 : List J)
    (hq : js1.length = js2.length) :
    ∃ p0 rt0, CreateScall lim rt cycle min max q sp f flag = Outcome.ret (p0, rt0) ∧
      ∃ p1 rt1, runCalls p0 rt0 calls = some (p1, rt1) ∧
        ∃ p2 rt2, tick p1 rt1 js1 js2 = some (p2, rt2) ∧
          (rt2.goroutines = rt1.goroutines ∨ rt2.cancelled = rt1.cancelled) := by
  refine ⟨_, _, CreateScall_of_valid lim rt cycle min max q sp f flag hv hfit, ?_⟩
  obtain ⟨p1, rt1, hrun, ⟨hsp, hlen, _⟩, _⟩ :=
    runCalls_inv calls (freshPool cycle min max q sp f flag)
      { rt with goroutines := rt.goroutines ++ [Goroutine.scaler] }
      (freshPool_inv cycle min max q sp f flag hv)
  exact ⟨p1, rt1, hrun, tick_same_length p1 rt1 js1 js2 hsp hlen hq⟩

/-- Witness for the same-queue tick: the spec's end-to-end configuration after
a scale-up, then a tick that sees 30 jobs twice. -/
theorem tick_same_queue_not_both_witness :
    ValidConfig (5 * timeSecond) 2 10 200 20 ∧
      (List.replicate 30 ()).length = (List.replicate 30 ()).length ∧
      ∃ p0 rt0,
        CreateScall unitLimits bootRuntime (5 * timeSecond) 2 10 200 20 (id : Unit → Unit) true =
          Outcome.ret (p0, rt0) ∧
        ∃ p1 rt1, runCalls p0 rt0 [(ScalerCall.up, List.replicate 150 ())] = some (p1, rt1) ∧
          ∃ p2 rt2, tick p1 rt1 (List.replicate 30 ()) (List.replicate 30 ()) =
              some (p2, rt2) ∧
            (rt2.goroutines = rt1.goroutines ∨ rt2.cancelled = rt1.cancelled) :=
  ⟨by unfold ValidConfig timeSecond; decide, rfl,
    tick_same_queue_not_both unitLimits bootRuntime (5 * timeSecond) 2 10 200 20 (id : Unit → Unit) true (by unfold ValidConfig timeSecond; decide) (fits_unitLimits 200 true (by decide))
      [(ScalerCall.up, List.replicate 150 ())] (List.replicate 30 ()) (List.replicate 30 ())
      rfl⟩

/-- A tick on a pool without workers whose two evaluations see queues shorter
than the scale point changes nothing but the queue. -/
theorem tick_small_backlog {J E : Type} (p : WorkerScall J E) (rt : Runtime)
    (js1 js2 : List J) (hsp : 0 < p.scallPoint) (hcur : p.currentEmp = 0)
    (h1 : (js1.length : Int) < p.scallPoint) (h2 : (js2.length : Int) < p.scallPoint) :
    tick p rt js1 js2 = some (setJobs (setJobs p js1) js2, rt) := by
  have d1 : specDemand (setJobs p js1) = 0 :=
    specDemand_eq_zero_of_small (setJobs p js1) hsp h1
  have d2 : specDemand (setJobs (setJobs p js1) js2) = 0 :=
    specDemand_eq_zero_of_small (setJobs (setJobs p js1) js2) hsp h2
  have hup : scallup (setJobs p js1) rt = some (setJobs p js1, rt) := by
    apply scallup_of_not_cond (setJobs p js1) rt hsp
    intro hc
    have h := hc.2.1
    rw [d1] at h
    have hcur1 : (setJobs p js1).currentEmp = 0 := hcur
    omega
  have hdown : scallDown (setJobs (setJobs p js1) js2) rt =
      some (setJobs (setJobs p js1) js2, rt) := by
    apply scallDown_of_not_cond (setJobs (setJobs p js1) js2) rt hsp
    intro hc
    have h := hc.1
    rw [d2] at h
    have hcur2 : (setJobs (setJobs p js1) js2).currentEmp = 0 := hcur
    omega
  unfold tick
  rw [hup]
  exact hdown

/-- Ticks that only see queues shorter than the scale point leave a pool
without workers without workers. -/
theorem runTicks_small_backlog {J E : Type} (obs : List (List J × List J)) :
    ∀ (p : WorkerScall J E) (rt : Runtime), 0 < p.scallPoint → p.currentEmp = 0 →
      p.cancelFuncs = [] →
      (∀ o ∈ obs, (o.1.length : Int) < p.scallPoint ∧ (o.2.length : Int) < p.scallPoint) →
      ∃ p1, runTicks p rt obs = some (p1, rt) ∧ p1.currentEmp = 0 ∧ p1.cancelFuncs = [] ∧
        p1.WaitGroup = p.WaitGroup := by
  induction obs with
  | nil =>
    intro p rt _ hcur hnil _
    exact ⟨p, rfl, hcur, hnil, rfl⟩
  | cons hd rest ih =>
    intro p rt hsp hcur hnil hall
    obtain ⟨js1, js2⟩ := hd
    have hhd := hall (js1, js2) (List.mem_cons_self _ _)
    have htick := tick_small_backlog p rt js1 js2 hsp hcur hhd.1 hhd.2
    obtain ⟨p1, hrun, h0, h1, h2⟩ :=
      ih (setJobs (setJobs p js1) js2) rt hsp hcur hnil
        (fun o ho => hall o (List.mem_cons_of_mem _ ho))
    refine ⟨p1, ?_, h0, h1, h2⟩
    simp only [runTicks, htick]
    exact hrun

/-- C17: a small backlog never starts a worker.  For every valid
configuration and every sequence of ticks in which every observed queue is
shorter than `scalePoint`, the ticks run from the pool returned by
`CreateScall` and leave `currentWorkers = 0`, the handle list empty and the
runtime untouched: no worker goroutine exists that could claim a job. -/
theorem small_backlog_starts_no_worker {J E : Type} (lim : Limits) (rt : Runtime)
    (cycle min max q sp : Int) (f : J → E) (flag : Bool)
    (hv : ValidConfig cycle min max q sp) (hfit : Fits lim q flag) (obs : List (List J × List J))
    (hsmall : ∀ o ∈ obs, (o.1.length : Int) < sp ∧ (o.2.length : Int) < sp) :
    ∃ p0 rt0, CreateScall lim rt cycle min max q sp f flag = Outcome.ret (p0, rt0) ∧
      rt0.goroutines = rt.goroutines ++ [Goroutine.scaler] ∧
      ∃ p1, runTicks p0 rt0 obs = some (p1, rt0) ∧ p1.currentEmp = 0 ∧
        p1.cancelFuncs = [] := by
  refine ⟨_, _, CreateScall_of_valid lim rt cycle min max q sp f flag hv hfit, rfl, ?_⟩
  have hsp : 0 < (freshPool cycle min max q sp f flag).scallPoint :=
    (freshPool_inv cycle min max q sp f flag hv).1
  obtain ⟨p1, hrun, h0, h1, _⟩ :=
    runTicks_small_backlog obs (freshPool cycle min max q sp f flag)
      { rt with goroutines := rt.goroutines ++ [Goroutine.scaler] } hsp rfl rfl hsmall
  exact ⟨p1, hrun, h0, h1⟩

/-- Witness for the small backlog: the spec's end-to-end configuration
(`scalePoint = 20`) and two ticks that see 19, 7, 3 and 0 jobs. -/
theorem small_backlog_starts_no_worker_witness :
    ValidConfig (5 * timeSecond) 2 10 200 20 ∧
      (∀ o ∈ [(List.replicate 19 (), List.replicate 7 ()), (List.replicate 3 (), [])],
        (o.1.length : Int) < 20 ∧ (o.2.length : Int) < 20) ∧
      ∃ p0 rt0,
        CreateScall unitLimits bootRuntime (5 * timeSecond) 2 10 200 20 (id : Unit → Unit) true =
          Outcome.ret (p0, rt0) ∧
        rt0.goroutines = bootRuntime.goroutines ++ [Goroutine.scaler] ∧
        ∃ p1,
          runTicks p0 rt0 [(List.replicate 19 (), List.replicate 7 ()),
              (List.replicate 3 (), [])] = some (p1, rt0) ∧
            p1.currentEmp = 0 ∧ p1.cancelFuncs = [] :=
  ⟨by unfold ValidConfig timeSecond; decide, by decide,
    small_backlog_starts_no_worker unitLimits bootRuntime (5 * timeSecond) 2 10 200 20
      (id : Unit → Unit) true (by unfold ValidConfig timeSecond; decide) (fits_unitLimits 200 true (by decide))
      [(List.replicate 19 (), List.replicate 7 ()), (List.replicate 3 (), [])]
      (by decide)⟩

/-! ## Handles and workers -/

theorem handleWorkersFrom_append (hs : List CancelFunc) (h : CancelFunc) :
    ∀ n : Nat, handleWorkersFrom n (hs ++ [h]) =
      handleWorkersFrom n hs ++ [Goroutine.worker h.ctx (((n + hs.length : Nat) : Int) + 1)] := by
  induction hs with
  | nil =>
    intro n
    simp [handleWorkersFrom]
  | cons a rest ih =>
    intro n
    show Goroutine.worker a.ctx ((n : Int) + 1) :: handleWorkersFrom (n + 1) (rest ++ [h]) =
      Goroutine.worker a.ctx ((n : Int) + 1) :: handleWorkersFrom (n + 1) rest ++
        [Goroutine.worker h.ctx (((n + (rest.length + 1) : Nat) : Int) + 1)]
    rw [ih (n + 1)]
    have e : n + 1 + rest.length = n + (rest.length + 1) := by omega
    rw [e]
    rfl

theorem handleWorkersFrom_length (hs : List CancelFunc) :
    ∀ n : Nat, (handleWorkersFrom n hs).length = hs.length := by
  induction hs with
  | nil => intro n; rfl
  | cons a rest ih =>
    intro n
    simp [handleWorkersFrom, ih (n + 1)]

theorem handleWorkersFrom_get (hs : List CancelFunc) :
    ∀ (n i : Nat) (h : CancelFunc), hs[i]? = some h →
      (handleWorkersFrom n hs)[i]? = some (Goroutine.worker h.ctx (((n + i : Nat) : Int) + 1)) := by
  induction hs with
  | nil =>
    intro n i h hi
    simp at hi
  | cons a rest ih =>
    intro n i h hi
    cases i with
    | zero =>
      simp at hi
      subst hi
      simp [handleWorkersFrom]
    | succ j =>
      simp at hi
      have := ih (n + 1) j h hi
      simp only [handleWorkersFrom, List.getElem?_cons_succ, this]
      have e : n + 1 + j = n + (j + 1) := by omega
      rw [e]

theorem handleWorkersFrom_ordinal_le (hs : List CancelFunc) :
    ∀ (n : Nat) (c : Nat) (k : Int), Goroutine.worker c k ∈ handleWorkersFrom n hs →
      k ≤ ((n + hs.length : Nat) : Int) := by
  induction hs with
  | nil =>
    intro n c k hk
    simp [handleWorkersFrom] at hk
  | cons a rest ih =>
    intro n c k hk
    simp only [handleWorkersFrom, List.mem_cons] at hk
    rcases hk with hk | hk
    · injection hk with _ h2
      subst h2
      simp only [List.length_cons]
      push_cast
      omega
    · have := ih (n + 1) c k hk
      simp only [List.length_cons]
      push_cast at this ⊢
      omega

theorem handleWorkersFrom_filter (hs : List CancelFunc) (x : Nat) :
    ∀ n : Nat, x ∉ hs.map CancelFunc.ctx →
      (handleWorkersFrom n hs).filter
          (fun g => match g with
            | Goroutine.scaler => true
            | Goroutine.worker c _ => decide (c ≠ x)) =
        handleWorkersFrom n hs := by
  induction hs with
  | nil =>
    intro n _
    rfl
  | cons a rest ih =>
    intro n hx
    simp only [List.map_cons, List.mem_cons, not_or] at hx
    have hne : a.ctx ≠ x := fun h => hx.1 h.symm
    simp only [handleWorkersFrom, List.filter_cons, hne, ne_eq, not_false_eq_true,
      decide_True, if_true, ih (n + 1) hx.2]

theorem liveWorkers_spawn (rt : Runtime) (k : Int)
    (hfresh : ∀ c ∈ rt.cancelled, c < rt.ctxCount) :
    liveWorkers { rt with ctxCount := rt.ctxCount + 1
                          goroutines := rt.goroutines ++ [Goroutine.worker rt.ctxCount k] } =
      liveWorkers rt ++ [Goroutine.worker rt.ctxCount k] := by
  have hnot : rt.ctxCount ∉ rt.cancelled := fun h => lt_irrefl _ (hfresh _ h)
  simp [liveWorkers, List.filter_append, Goroutine.isLive, hnot]

theorem liveWorkers_cancel (rt : Runtime) (x : Nat) :
    liveWorkers { rt with cancelled := rt.cancelled ++ [x] } =
      (liveWorkers rt).filter
        (fun g => match g with
          | Goroutine.scaler => true
          | Goroutine.worker c _ => decide (c ≠ x)) := by
  simp only [liveWorkers, List.filter_filter]
  apply List.filter_congr
  intro g _
  cases g with
  | scaler => simp [Goroutine.isLive]
  | worker c k =>
    simp only [Goroutine.isLive, List.mem_append, List.mem_singleton, not_or]
    by_cases h1 : c ∈ rt.cancelled <;> by_cases h2 : c = x <;> simp [h1, h2]

theorem scallup_stack {J E : Type} (p : WorkerScall J E) (rt : Runtime)
    (h : StackInv p rt) :
    ∃ p1 rt1, scallup p rt = some (p1, rt1) ∧ StackInv p1 rt1 := by
  obtain ⟨hsp, hlen, hlive, hctx, hnd, hcan⟩ := h
  by_cases hc : specDemand p < p.maxWorker ∧ specDemand p > p.currentEmp ∧
      p.currentEmp < p.maxWorker
  · refine ⟨_, _, scallup_of_cond p rt hsp hc, hsp, ?_, ?_, ?_, ?_, ?_⟩
    · simp only [List.length_append, List.length_singleton, Nat.cast_add, Nat.cast_one]
      omega
    · rw [liveWorkers_spawn rt (p.currentEmp + 1) hcan, hlive]
      show _ = handleWorkersFrom 0 (p.cancelFuncs ++ [CancelFunc.mk rt.ctxCount])
      rw [handleWorkersFrom_append]
      have e : ((0 + p.cancelFuncs.length : Nat) : Int) = p.currentEmp := by
        rw [Nat.zero_add]
        exact hlen
      rw [e]
    · intro a ha
      show a.ctx < rt.ctxCount + 1
      have ha' : a ∈ p.cancelFuncs ++ [CancelFunc.mk rt.ctxCount] := ha
      rw [List.mem_append, List.mem_singleton] at ha'
      rcases ha' with ha' | ha'
      · exact Nat.lt_succ_of_lt (hctx a ha')
      · rw [ha']
        exact Nat.lt_succ_self _
    · show ((p.cancelFuncs ++ [CancelFunc.mk rt.ctxCount]).map CancelFunc.ctx).Nodup
      rw [List.map_append, List.nodup_append]
      refine ⟨hnd, by simp, ?_⟩
      intro a ha1 ha2
      rw [List.mem_map] at ha1
      obtain ⟨b, hb, hba⟩ := ha1
      have hlt := hctx b hb
      simp at ha2
      omega
    · intro c hcm
      exact Nat.lt_succ_of_lt (hcan c hcm)
  · exact ⟨_, _, scallup_of_not_cond p rt hsp hc, hsp, hlen, hlive, hctx, hnd, hcan⟩

theorem scallDown_stack {J E : Type} (p : WorkerScall J E) (rt : Runtime)
    (h : StackInv p rt) :
    scallDown p rt = some (p, rt) ∨
      ∃ pre last, p.cancelFuncs = pre ++ [last] ∧
        scallDown p rt =
          some ({ p with cancelFuncs := pre, currentEmp := p.currentEmp - 1 },
                { rt with cancelled := rt.cancelled ++ [last.ctx] }) ∧
        StackInv { p with cancelFuncs := pre, currentEmp := p.currentEmp - 1 }
          { rt with cancelled := rt.cancelled ++ [last.ctx] } ∧
        Goroutine.worker last.ctx p.currentEmp ∈ liveWorkers rt := by
  obtain ⟨hsp, hlen, hlive, hctx, hnd, hcan⟩ := h
  by_cases hc : specDemand p < p.currentEmp ∧ p.currentEmp > p.minWorker
  · right
    have hd := specDemand_nonneg p hsp
    have hne : p.cancelFuncs ≠ [] := by
      intro h0
      rw [h0] at hlen
      simp at hlen
      omega
    obtain ⟨pre, last, hl⟩ := exists_concat_of_ne_nil p.cancelFuncs hne
    have hpre : (pre.length : Int) = p.currentEmp - 1 := by
      rw [hl] at hlen
      simp only [List.length_append, List.length_singleton, Nat.cast_add, Nat.cast_one] at hlen
      omega
    have hlive2 : liveWorkers rt =
        handleWorkersFrom 0 pre ++ [Goroutine.worker last.ctx p.currentEmp] := by
      rw [hlive, hl, handleWorkersFrom_append]
      have e : (((0 + pre.length : Nat) : Int) + 1) = p.currentEmp := by
        rw [Nat.zero_add]
        omega
      rw [e]
    have hnd2 : (pre.map CancelFunc.ctx ++ [last.ctx]).Nodup := by
      have := hnd
      rw [hl, List.map_append] at this
      exact this
    rw [List.nodup_append] at hnd2
    have hnotin : last.ctx ∉ pre.map CancelFunc.ctx := by
      intro hin
      exact hnd2.2.2 hin (List.mem_singleton_self _)
    refine ⟨pre, last, hl, scallDown_of_cond p rt hsp hc pre last hl, ⟨hsp, hpre, ?_, ?_, hnd2.1, ?_⟩, ?_⟩
    · rw [liveWorkers_cancel, hlive2, List.filter_append,
        handleWorkersFrom_filter pre last.ctx 0 hnotin]
      simp
    · intro a ha
      apply hctx
      rw [hl]
      exact List.mem_append_left _ ha
    · intro c hcm
      have hcm' : c ∈ rt.cancelled ++ [last.ctx] := hcm
      rw [List.mem_append, List.mem_singleton] at hcm'
      rcases hcm' with h1 | h1
      · exact hcan c h1
      · rw [h1]
        apply hctx
        rw [hl]
        simp
    · rw [hlive2]
      simp
  · exact Or.inl (scallDown_of_not_cond p rt hsp hc)

theorem runCalls_stack {J E : Type} (calls : List (ScalerCall × List J)) :
    ∀ (p : WorkerScall J E) (rt : Runtime), StackInv p rt →
      ∃ p1 rt1, runCalls p rt calls = some (p1, rt1) ∧ StackInv p1 rt1 := by
  induction calls with
  | nil =>
    intro p rt hinv
    exact ⟨p, rt, rfl, hinv⟩
  | cons hd rest ih =>
    intro p rt hinv
    obtain ⟨c, js⟩ := hd
    have hinv' : StackInv (setJobs p js) rt := hinv
    have hstep : ∃ pa rta, callScaler c (setJobs p js) rt = some (pa, rta) ∧
        StackInv pa rta := by
      cases c with
      | up => exact scallup_stack (setJobs p js) rt hinv'
      | down =>
        rcases scallDown_stack (setJobs p js) rt hinv' with h | ⟨pre, last, _, h, hi, _⟩
        · exact ⟨_, _, h, hinv'⟩
        · exact ⟨_, _, h, hi⟩
    obtain ⟨pa, rta, hcall, hainv⟩ := hstep
    obtain ⟨pb, rtb, hrun, hbinv⟩ := ih pa rta hainv
    refine ⟨pb, rtb, ?_, hbinv⟩
    simp only [runCalls, hcall]
    exact hrun

theorem freshPool_stack {J E : Type} (cycle min max q sp : Int) (f : J → E) (flag : Bool)
    (h : ValidConfig cycle min max q sp) :
    StackInv (freshPool cycle min max q sp f flag)
      { bootRuntime with goroutines := bootRuntime.goroutines ++ [Goroutine.scaler] } := by
  refine ⟨(freshPool_inv cycle min max q sp f flag h).1, rfl, rfl, ?_, ?_, ?_⟩
  · intro a ha
    cases ha
  · exact List.nodup_nil
  · intro c hc
    cases hc

/-- C15: worker ordinals and handles stay in 1:1 stack order.  For every valid
configuration and every sequence of `scallup` and `scallDown` calls run from
the pool returned by `CreateScall`: there are as many live workers (started
and not cancelled) as handles and as `currentWorkers`; the handle at position
`i` (counting from 1) is the handle of the live worker at position `i`, whose
ordinal is `i`; no live worker has an ordinal above `currentWorkers`; and a
`scallDown` that cancels anything cancels the live worker with ordinal
`currentWorkers`, the highest one. -/
theorem handles_match_live_workers {J E : Type} (lim : Limits) (cycle min max q sp : Int)
    (f : J → E) (flag : Bool) (hv : ValidConfig cycle min max q sp) (hfit : Fits lim q flag)
    (calls : List (ScalerCall × List J)) :
    ∃ p0 rt0, CreateScall lim bootRuntime cycle min max q sp f flag = Outcome.ret (p0, rt0) ∧
      ∃ p1 rt1, runCalls p0 rt0 calls = some (p1, rt1) ∧
        (liveWorkers rt1).length = p1.cancelFuncs.length ∧
        (p1.cancelFuncs.length : Int) = p1.currentEmp ∧
        (∀ (i : Nat) (h : CancelFunc), p1.cancelFuncs[i]? = some h →
          (liveWorkers rt1)[i]? = some (Goroutine.worker h.ctx ((i : Int) + 1))) ∧
        (∀ (c : Nat) (k : Int), Goroutine.worker c k ∈ liveWorkers rt1 →
          k ≤ p1.currentEmp) ∧
        ∀ js : List J,
          scallDown (setJobs p1 js) rt1 = some (setJobs p1 js, rt1) ∨
            ∃ p2 c, scallDown (setJobs p1 js) rt1 =
                some (p2, { rt1 with cancelled := rt1.cancelled ++ [c] }) ∧
              Goroutine.worker c p1.currentEmp ∈ liveWorkers rt1 := by
  refine ⟨_, _, CreateScall_of_valid lim bootRuntime cycle min max q sp f flag hv hfit, ?_⟩
  obtain ⟨p1, rt1, hrun, hinv⟩ :=
    runCalls_stack calls (freshPool cycle min max q sp f flag)
      { bootRuntime with goroutines := bootRuntime.goroutines ++ [Goroutine.scaler] }
      (freshPool_stack cycle min max q sp f flag hv)
  have hinv2 := hinv
  obtain ⟨hsp, hlen, hlive, hctx, hnd, hcan⟩ := hinv
  refine ⟨p1, rt1, hrun, ?_, hlen, ?_, ?_, ?_⟩
  · rw [hlive, handleWorkersFrom_length]
  · intro i h hi
    rw [hlive, handleWorkersFrom_get p1.cancelFuncs 0 i h hi, Nat.zero_add]
  · intro c k hk
    rw [hlive] at hk
    have := handleWorkersFrom_ordinal_le p1.cancelFuncs 0 c k hk
    rw [Nat.zero_add] at this
    omega
  · intro js
    rcases scallDown_stack (setJobs p1 js) rt1 hinv2 with h | ⟨pre, last, _, h, _, hmem⟩
    · exact Or.inl h
    · exact Or.inr ⟨_, last.ctx, h, hmem⟩

/-- Witness for the stack order: the spec's end-to-end configuration, two
scale-ups, a scale-down and another scale-up. -/
theorem handles_match_live_workers_witness :
    ValidConfig (5 * timeSecond) 1 10 200 20 ∧
      ∃ p0 rt0,
        CreateScall unitLimits bootRuntime (5 * timeSecond) 1 10 200 20 (id : Unit → Unit) true =
          Outcome.ret (p0, rt0) ∧
        ∃ p1 rt1,
          runCalls p0 rt0
              [(ScalerCall.up, List.replicate 150 ()), (ScalerCall.up, List.replicate 150 ()),
                (ScalerCall.down, []), (ScalerCall.up, List.replicate 150 ())] =
            some (p1, rt1) ∧
          (liveWorkers rt1).length = p1.cancelFuncs.length ∧
          (p1.cancelFuncs.length : Int) = p1.currentEmp := by
  have hv : ValidConfig (5 * timeSecond) 1 10 200 20 := by
    unfold ValidConfig timeSecond
    decide
  obtain ⟨p0, rt0, hc, p1, rt1, hrun, h1, h2, _⟩ :=
    handles_match_live_workers unitLimits (5 * timeSecond) 1 10 200 20 (id : Unit → Unit) true hv
      (fits_unitLimits 200 true (by decide))
      [(ScalerCall.up, List.replicate 150 ()), (ScalerCall.up, List.replicate 150 ()),
        (ScalerCall.down, []), (ScalerCall.up, List.replicate 150 ())]
  exact ⟨hv, p0, rt0, hc, p1, rt1, hrun, h1, h2⟩

/-! ## Shutdown -/

theorem stopCloseJob_some {J E : Type} (p p1 : WorkerScall J E)
    (h : stopCloseJob p = some p1) :
    p.job.closed = false ∧ p1 = { p with job := { p.job with closed := true } } := by
  unfold stopCloseJob closeChan at h
  by_cases hc : p.job.closed = true
  · simp [hc] at h
  · have hc' : p.job.closed = false := by simpa using hc
    simp only [hc', Bool.false_eq_true, if_false, Option.some.injEq] at h
    exact ⟨hc', h.symm⟩

theorem stopCloseJob_none {J E : Type} (p : WorkerScall J E) (h : p.job.closed = true) :
    stopCloseJob p = none := by
  unfold stopCloseJob closeChan
  simp [h]

theorem stopCloseProgress_some {J E : Type} (p p1 : WorkerScall J E)
    (h : stopCloseProgress p = some p1) :
    p1.job = p.job ∧ p1.WaitGroup = p.WaitGroup ∧ p1.Ticker = p.Ticker ∧
      p1.cancelFuncs = p.cancelFuncs := by
  unfold stopCloseProgress closeChan at h
  by_cases hf : p.progressFlag = true
  · simp only [hf, if_true] at h
    cases hp : p.progress with
    | none => simp [hp] at h
    | some c =>
      simp only [hp] at h
      by_cases hcc : c.closed = true
      · simp [hcc] at h
      · have hcc' : c.closed = false := by simpa using hcc
        simp only [hcc', Bool.false_eq_true, if_false, Option.some.injEq] at h
        subst h
        exact ⟨rfl, rfl, rfl, rfl⟩
  · have hf' : p.progressFlag = false := by simpa using hf
    simp only [hf', Bool.false_eq_true, if_false, Option.some.injEq] at h
    subst h
    exact ⟨rfl, rfl, rfl, rfl⟩

/-- What a completed `Stop` leaves behind. -/
theorem Stop_returned {J E : Type} (p p1 : WorkerScall J E) (rt rt1 : Runtime)
    (h : Stop p rt = Stopped.returned (p1, rt1)) :
    p.WaitGroup = 0 ∧ p.job.closed = false ∧ p1.WaitGroup = 0 ∧
      p1.job = { p.job with closed := true } ∧
      p1.Ticker = p.Ticker.map (fun t => { t with running := false }) ∧
      p1.cancelFuncs = p.cancelFuncs ∧
      rt1 = { rt with cancelled := rt.cancelled ++ p.cancelFuncs.map CancelFunc.ctx } := by
  unfold Stop at h
  by_cases hw : p.WaitGroup ≠ 0
  · rw [if_pos hw] at h
    cases h
  · rw [if_neg hw] at h
    have hw0 : p.WaitGroup = 0 := not_not.mp hw
    cases hj : stopCloseJob (stopTicker p) with
    | none =>
      simp only [hj] at h
      cases h
    | some p2 =>
      simp only [hj] at h
      cases hp : stopCloseProgress p2 with
      | none =>
        simp only [hp] at h
        cases h
      | some p3 =>
        simp only [hp] at h
        injection h with h
        injection h with h1 h2
        subst h1
        subst h2
        obtain ⟨hopen, hp2⟩ := stopCloseJob_some (stopTicker p) p2 hj
        obtain ⟨e1, e2, e3, e4⟩ := stopCloseProgress_some p2 p3 hp
        subst hp2
        exact ⟨hw0, hopen, e2.trans hw0, e1, e3, e4, rfl⟩

theorem stopTicker_fixed {J E : Type} (p : WorkerScall J E)
    (h : ∀ t, p.Ticker = some t → t.running = false) : stopTicker p = p := by
  unfold stopTicker
  cases p with
  | mk a1 a2 a3 a4 a5 a6 a7 a8 a9 a10 a11 a12 tk =>
    cases tk with
    | none => rfl
    | some t =>
      have ht : t.running = false := h t rfl
      cases t with
      | mk period running =>
        simp only at ht
        subst ht
        rfl

/-- C11, as stated, fails: on the pool that `CreateScall` returns for
`min = 1`, `max = 10`, `queueCapacity = 100`, `scalePoint = 10`,
`cycle = 5 s`, once the scaler has created its ticker, a first `Stop`
completes and a second `Stop` faults (it closes the already closed job
channel) instead of returning with nothing changed. -/
theorem second_Stop_faults_on_fresh_pool :
    CreateScall demoLimits bootRuntime (5 * timeSecond) 1 10 100 10 (fun n : Nat => 2 * n)
        false = Outcome.ret (tinyPool, tinyRuntime) ∧
      ∃ p0 p1 rt1, startTicker tinyPool = some p0 ∧
        Stop p0 tinyRuntime = Stopped.returned (p1, rt1) ∧
        Stop p1 rt1 = Stopped.faulted (p1, rt1) ∧
        Stop p1 rt1 ≠ Stopped.returned (p1, rt1) := by
  refine ⟨?_, _, _, _, rfl, rfl, rfl, ?_⟩
  · exact CreateScall_of_valid demoLimits bootRuntime (5 * timeSecond) 1 10 100 10 _ false
      (by unfold ValidConfig timeSecond; decide) (fits_demoLimits 100 false (by decide))
  · intro h
    cases h

/-- C11, amended: for every pool on which `Stop` has completed, a second call
of `Stop` is not a no-op.  Its wait returns at once (the counter is zero), it
stops the ticker, which the first call has stopped already, and invokes every
handle of the list once more, and then it faults when it closes the job
channel, which the first call has closed.  At the fault the pool is exactly as
the first call left it (ticker stopped, job channel closed once with its
queue untouched): nothing has been closed a second time and no job has been
processed; the runtime has every handle invoked twice. -/
theorem second_Stop_faults {J E : Type} (p p1 : WorkerScall J E) (rt rt1 : Runtime)
    (h : Stop p rt = Stopped.returned (p1, rt1)) :
    Stop p1 rt1 =
        Stopped.faulted (p1, { rt1 with cancelled :=
          rt1.cancelled ++ p1.cancelFuncs.map CancelFunc.ctx }) ∧
      rt1.cancelled = rt.cancelled ++ p.cancelFuncs.map CancelFunc.ctx ∧
      p1.cancelFuncs = p.cancelFuncs ∧
      (∀ t, p1.Ticker = some t → t.running = false) ∧
      p1.Ticker.isSome = p.Ticker.isSome ∧
      p1.WaitGroup = 0 ∧ p.job.closed = false ∧ p1.job.closed = true ∧
      p1.job.buf = p.job.buf := by
  obtain ⟨_, hopen, hw, hjob, htick, hfun, hrt⟩ := Stop_returned p p1 rt rt1 h
  have hstopped : ∀ t, p1.Ticker = some t → t.running = false := by
    intro t ht
    rw [htick] at ht
    cases hpt : p.Ticker with
    | none => simp [hpt] at ht
    | some t0 =>
      simp only [hpt, Option.map_some', Option.some.injEq] at ht
      subst ht
      rfl
  have hclosed : p1.job.closed = true := by rw [hjob]
  have hfix : stopTicker p1 = p1 := stopTicker_fixed p1 hstopped
  refine ⟨?_, ?_, hfun, hstopped, ?_, hw, hopen, hclosed, ?_⟩
  · unfold Stop
    have hw' : ¬ p1.WaitGroup ≠ 0 := by simp [hw]
    rw [if_neg hw']
    simp only [hfix, stopCloseJob_none p1 hclosed]
    rfl
  · rw [hrt]
  · rw [htick]
    cases p.Ticker <;> rfl
  · rw [hjob]

/-- Witness for the second `Stop`: `threePool`, with a running ticker and
three handles; the second call faults with the handles 0, 1, 2 invoked
twice. -/
theorem second_Stop_faults_witness :
    ∃ p1 rt1, Stop threePool threeRuntime = Stopped.returned (p1, rt1) ∧
      rt1.cancelled = [0, 1, 2] ∧
      Stop p1 rt1 = Stopped.faulted (p1, { rt1 with cancelled := [0, 1, 2, 0, 1, 2] }) ∧
      (∀ t, p1.Ticker = some t → t.running = false) ∧ p1.Ticker.isSome = true := by
  have h := second_Stop_faults threePool _ threeRuntime _ rfl
  exact ⟨_, _, rfl, rfl, h.1, h.2.2.2.1, h.2.2.2.2.1⟩

/-! ## The running program -/

theorem release_length {J E : Type} (c : Nat) (ph : Phase J E) :
    ∀ l : List (Nat × Phase J E), phaseOf c l = some ph →
      (release c l).length + 1 = l.length := by
  intro l
  induction l with
  | nil =>
    intro h
    cases h
  | cons hd rest ih =>
    obtain ⟨d, q⟩ := hd
    intro h
    by_cases hdc : d = c
    · simp [release, hdc]
    · simp only [phaseOf, if_neg hdc] at h
      simp only [release, if_neg hdc, List.length_cons]
      rw [ih h]

theorem gotJobs_release_got {J E : Type} (c : Nat) (j : J) :
    ∀ l : List (Nat × Phase J E), phaseOf c l = some (Phase.got j) →
      (gotJobs l).Perm (j :: gotJobs (release c l)) := by
  intro l
  induction l with
  | nil =>
    intro h
    cases h
  | cons hd rest ih =>
    obtain ⟨d, q⟩ := hd
    intro h
    by_cases hdc : d = c
    · simp only [phaseOf, if_pos hdc, Option.some.injEq] at h
      subst h
      simp only [release, if_pos hdc, gotJobs]
      exact List.Perm.refl _
    · simp only [phaseOf, if_neg hdc] at h
      simp only [release, if_neg hdc]
      cases q with
      | got k =>
        simp only [gotJobs]
        exact ((ih h).cons k).trans (List.Perm.swap j k _)
      | ran r => simpa only [gotJobs] using ih h
      | sent => simpa only [gotJobs] using ih h

theorem gotJobs_release_other {J E : Type} (c : Nat) (ph : Phase J E)
    (hph : ∀ j, ph ≠ Phase.got j) :
    ∀ l : List (Nat × Phase J E), phaseOf c l = some ph →
      gotJobs (release c l) = gotJobs l := by
  intro l
  induction l with
  | nil =>
    intro h
    cases h
  | cons hd rest ih =>
    obtain ⟨d, q⟩ := hd
    intro h
    by_cases hdc : d = c
    · simp only [phaseOf, if_pos hdc, Option.some.injEq] at h
      subst h
      simp only [release, if_pos hdc]
      cases q with
      | got k => exact absurd rfl (hph k)
      | ran r => rfl
      | sent => rfl
    · simp only [phaseOf, if_neg hdc] at h
      simp only [release, if_neg hdc]
      cases q with
      | got k => simp only [gotJobs, ih h]
      | ran r => simpa only [gotJobs] using ih h
      | sent => simpa only [gotJobs] using ih h

theorem scallup_keeps_queue {J E : Type} (p p1 : WorkerScall J E) (rt rt1 : Runtime)
    (h : scallup p rt = some (p1, rt1)) :
    p1.job = p.job ∧ p1.WaitGroup = p.WaitGroup := by
  unfold scallup at h
  cases hg : goDiv p.job.len p.scallPoint with
  | none => simp [hg] at h
  | some lCur =>
    simp only [hg] at h
    by_cases hc : lCur < p.maxWorker ∧ lCur > p.currentEmp ∧ p.currentEmp < p.maxWorker
    · rw [if_pos hc] at h
      injection h with h
      injection h with h1 h2
      subst h1
      exact ⟨rfl, rfl⟩
    · rw [if_neg hc] at h
      injection h with h
      injection h with h1 h2
      subst h1
      exact ⟨rfl, rfl⟩

theorem scallDown_keeps_queue {J E : Type} (p p1 : WorkerScall J E) (rt rt1 : Runtime)
    (h : scallDown p rt = some (p1, rt1)) :
    p1.job = p.job ∧ p1.WaitGroup = p.WaitGroup := by
  unfold scallDown at h
  cases hg : goDiv p.job.len p.scallPoint with
  | none => simp [hg] at h
  | some lCur =>
    simp only [hg] at h
    by_cases hc : lCur < p.currentEmp ∧ p.currentEmp > p.minWorker
    · rw [if_pos hc] at h
      cases hl : p.cancelFuncs.getLast? with
      | none => simp [hl] at h
      | some last =>
        simp only [hl] at h
        injection h with h
        injection h with h1 h2
        subst h1
        exact ⟨rfl, rfl⟩
    · rw [if_neg hc] at h
      injection h with h
      injection h with h1 h2
      subst h1
      exact ⟨rfl, rfl⟩

/-- Every atomic step keeps the bookkeeping. -/
theorem startTicker_some {J E : Type} (p p1 : WorkerScall J E)
    (h : startTicker p = some p1) :
    p1 = { p with Ticker := some { period := p.Duration, running := true } } := by
  unfold startTicker at h
  by_cases hd : p.Duration ≤ 0
  · rw [if_pos hd] at h
    cases h
  · rw [if_neg hd] at h
    injection h with h
    exact h.symm

/-- A step that is not a statement of `Stop` leaves its progress unchanged, and
a statement of `Stop` moves it forward: if `Stop` has not closed the job
channel after a step, it had not before. -/
theorem worldStep_early {J E : Type} [Inhabited J] (w w1 : World J E) (e : Event J)
    (h : worldStep w e = Run.done w1) (hearly : w1.stopAt.early = true) :
    w.stopAt.early = true := by
  cases e with
  | stop =>
    simp only [worldStep] at h
    cases hs : w.stopAt with
    | idle => rfl
    | waited => rfl
    | tickerStopped => rfl
    | handlesInvoked => rfl
    | jobClosed =>
      simp only [hs] at h
      split at h
      · cases h
      · injection h with h
        subst h
        cases hearly
    | returned =>
      simp only [hs] at h
      cases h
  | doSend pWork =>
    simp only [worldStep] at h
    (repeat' split at h) <;>
      first | (cases h; done) | (injection h with h; subst h; exact hearly)
  | doAdd =>
    simp only [worldStep] at h
    (repeat' split at h) <;>
      first | (cases h; done) | (injection h with h; subst h; exact hearly)
  | up =>
    simp only [worldStep] at h
    (repeat' split at h) <;>
      first | (cases h; done) | (injection h with h; subst h; exact hearly)
  | down =>
    simp only [worldStep] at h
    (repeat' split at h) <;>
      first | (cases h; done) | (injection h with h; subst h; exact hearly)
  | recv c =>
    simp only [worldStep] at h
    (repeat' split at h) <;>
      first | (cases h; done) | (injection h with h; subst h; exact hearly)
  | call c =>
    simp only [worldStep] at h
    (repeat' split at h) <;>
      first | (cases h; done) | (injection h with h; subst h; exact hearly)
  | emit c =>
    simp only [worldStep] at h
    (repeat' split at h) <;>
      first | (cases h; done) | (injection h with h; subst h; exact hearly)
  | fin c =>
    simp only [worldStep] at h
    (repeat' split at h) <;>
      first | (cases h; done) | (injection h with h; subst h; exact hearly)
  | quit c =>
    simp only [worldStep] at h
    (repeat' split at h) <;>
      first | (cases h; done) | (injection h with h; subst h; exact hearly)
  | start =>
    simp only [worldStep] at h
    (repeat' split at h) <;>
      first | (cases h; done) | (injection h with h; subst h; exact hearly)

theorem runEvents_early {J E : Type} [Inhabited J] (evs : List (Event J)) :
    ∀ (w w1 : World J E), runEvents w evs = Run.done w1 → w1.stopAt.early = true →
      w.stopAt.early = true := by
  induction evs with
  | nil =>
    intro w w1 h hearly
    injection h with h
    subst h
    exact hearly
  | cons e rest ih =>
    intro w w1 h hearly
    simp only [runEvents] at h
    split at h
    · rename_i wa hstep
      exact worldStep_early w wa e hstep (ih wa w1 h hearly)
    · cases h
    · cases h

/-- Every atomic step after which `Stop` has not yet closed the job channel
keeps the bookkeeping. -/
theorem worldStep_conserved {J E : Type} [Inhabited J] (w w1 : World J E) (e : Event J)
    (hc : Conserved w) (h : worldStep w e = Run.done w1)
    (hearly : w1.stopAt.early = true) : Conserved w1 := by
  obtain ⟨hperm, hcount, hopen⟩ := hc
  cases e with
  | doSend pWork =>
    simp only [worldStep, hopen, Bool.false_eq_true, if_false] at h
    split at h
    · injection h with h
      subst h
      refine ⟨?_, ?_, rfl⟩
      · have := hperm.append_right [pWork]
        simpa only [List.append_assoc] using this
      · show w.pool.WaitGroup + ((w.inDo + 1 : Nat) : Int) =
          ((w.pool.job.buf ++ [pWork]).length : Int) + (w.busy.length : Int)
        rw [List.length_append, List.length_singleton]
        push_cast
        omega
    · cases h
  | doAdd =>
    simp only [worldStep] at h
    split at h
    · cases h
    · split at h
      · cases h
      · rename_i hpos _
        injection h with h
        subst h
        refine ⟨hperm, ?_, hopen⟩
        show w.pool.WaitGroup + 1 + ((w.inDo - 1 : Nat) : Int) =
          (w.pool.job.buf.length : Int) + (w.busy.length : Int)
        omega
  | up =>
    simp only [worldStep] at h
    split at h
    · cases h
    · rename_i p rt hs
      injection h with h
      subst h
      obtain ⟨hj, hw⟩ := scallup_keeps_queue w.pool p w.rt rt hs
      refine ⟨?_, ?_, ?_⟩
      · show w.submitted.Perm (w.invoked ++ gotJobs w.busy ++ p.job.buf)
        rw [hj]
        exact hperm
      · show p.WaitGroup + (w.inDo : Int) = (p.job.buf.length : Int) + (w.busy.length : Int)
        rw [hj, hw]
        exact hcount
      · show p.job.closed = false
        rw [hj]
        exact hopen
  | down =>
    simp only [worldStep] at h
    split at h
    · cases h
    · rename_i p rt hs
      injection h with h
      subst h
      obtain ⟨hj, hw⟩ := scallDown_keeps_queue w.pool p w.rt rt hs
      refine ⟨?_, ?_, ?_⟩
      · show w.submitted.Perm (w.invoked ++ gotJobs w.busy ++ p.job.buf)
        rw [hj]
        exact hperm
      · show p.WaitGroup + (w.inDo : Int) = (p.job.buf.length : Int) + (w.busy.length : Int)
        rw [hj, hw]
        exact hcount
      · show p.job.closed = false
        rw [hj]
        exact hopen
  | recv c =>
    simp only [worldStep, hopen, Bool.false_eq_true, if_false] at h
    split at h
    · split at h
      · rename_i lJob rest hbuf
        injection h with h
        subst h
        rw [hbuf] at hperm hcount
        refine ⟨?_, ?_, rfl⟩
        · show w.submitted.Perm (w.invoked ++ (lJob :: gotJobs w.busy) ++ rest)
          refine hperm.trans ?_
          have e1 : w.invoked ++ gotJobs w.busy ++ lJob :: rest =
              w.invoked ++ (gotJobs w.busy ++ lJob :: rest) := by
            rw [List.append_assoc]
          have e2 : w.invoked ++ (lJob :: gotJobs w.busy) ++ rest =
              w.invoked ++ (lJob :: (gotJobs w.busy ++ rest)) := by
            rw [List.append_assoc]
            rfl
          rw [e1, e2]
          exact List.Perm.append_left _ List.perm_middle
        · show w.pool.WaitGroup + (w.inDo : Int) =
            (rest.length : Int) + (((c, Phase.got lJob) :: w.busy).length : Int)
          rw [List.length_cons] at hcount ⊢
          push_cast at hcount ⊢
          omega
      · cases h
    · cases h
  | call c =>
    simp only [worldStep] at h
    split at h
    · rename_i lJob hph
      injection h with h
      subst h
      have hlen := release_length c (Phase.got lJob) w.busy hph
      have hgot := gotJobs_release_got c lJob w.busy hph
      refine ⟨?_, ?_, hopen⟩
      · have hg : gotJobs
            ((c, if w.pool.progressFlag = true then Phase.ran (w.pool.doFunc lJob)
                 else Phase.sent) :: release c w.busy) = gotJobs (release c w.busy) := by
          by_cases hf : w.pool.progressFlag = true
          · rw [if_pos hf]
            rfl
          · rw [if_neg hf]
            rfl
        show w.submitted.Perm (w.invoked ++ [lJob] ++ gotJobs _ ++ w.pool.job.buf)
        rw [hg]
        refine hperm.trans ?_
        have e1 : w.invoked ++ [lJob] ++ gotJobs (release c w.busy) ++ w.pool.job.buf =
            w.invoked ++ (lJob :: gotJobs (release c w.busy)) ++ w.pool.job.buf := by
          simp
        rw [e1]
        exact List.Perm.append_right _ (List.Perm.append_left _ hgot)
      · show w.pool.WaitGroup + (w.inDo : Int) =
          (w.pool.job.buf.length : Int) + (((c, _) :: release c w.busy).length : Int)
        rw [List.length_cons]
        push_cast
        omega
    · cases h
  | emit c =>
    simp only [worldStep] at h
    split at h
    · rename_i lResp hph
      split at h
      · cases h
      · split at h
        · cases h
        · split at h
          · injection h with h
            subst h
            have hlen := release_length c (Phase.ran lResp) w.busy hph
            have hg := gotJobs_release_other c (Phase.ran lResp)
              (fun j hj => by cases hj) w.busy hph
            refine ⟨?_, ?_, hopen⟩
            · show w.submitted.Perm
                (w.invoked ++ gotJobs ((c, Phase.sent) :: release c w.busy) ++ w.pool.job.buf)
              show w.submitted.Perm (w.invoked ++ gotJobs (release c w.busy) ++ w.pool.job.buf)
              rw [hg]
              exact hperm
            · show w.pool.WaitGroup + (w.inDo : Int) =
                (w.pool.job.buf.length : Int) +
                  (((c, Phase.sent) :: release c w.busy).length : Int)
              rw [List.length_cons]
              push_cast
              omega
          · cases h
    · cases h
  | fin c =>
    simp only [worldStep] at h
    split at h
    · rename_i hph
      split at h
      · cases h
      · injection h with h
        subst h
        have hlen := release_length c Phase.sent w.busy hph
        have hg := gotJobs_release_other c Phase.sent (fun j hj => by cases hj) w.busy hph
        refine ⟨?_, ?_, hopen⟩
        · show w.submitted.Perm (w.invoked ++ gotJobs (release c w.busy) ++ w.pool.job.buf)
          rw [hg]
          exact hperm
        · show w.pool.WaitGroup - 1 + (w.inDo : Int) =
            (w.pool.job.buf.length : Int) + ((release c w.busy).length : Int)
          omega
    · cases h
  | quit c =>
    simp only [worldStep] at h
    split at h
    · injection h with h
      subst h
      exact ⟨hperm, hcount, hopen⟩
    · cases h
  | start =>
    simp only [worldStep] at h
    split at h
    · cases h
    · split at h
      · split at h
        · cases h
        · rename_i p hs
          injection h with h
          subst h
          have hp := startTicker_some w.pool p hs
          subst hp
          exact ⟨hperm, hcount, hopen⟩
      · cases h
  | stop =>
    simp only [worldStep] at h
    cases hs : w.stopAt with
    | idle =>
      simp only [hs] at h
      split at h
      · cases h
      · injection h with h
        subst h
        exact ⟨hperm, hcount, hopen⟩
    | waited =>
      simp only [hs] at h
      injection h with h
      subst h
      exact ⟨hperm, hcount, hopen⟩
    | tickerStopped =>
      simp only [hs] at h
      injection h with h
      subst h
      exact ⟨hperm, hcount, hopen⟩
    | handlesInvoked =>
      simp only [hs] at h
      split at h
      · cases h
      · injection h with h
        subst h
        cases hearly
    | jobClosed =>
      simp only [hs] at h
      split at h
      · cases h
      · injection h with h
        subst h
        cases hearly
    | returned =>
      simp only [hs] at h
      cases h

/-- Every run that neither blocks nor faults, and in which `Stop` has not yet
closed the job channel, keeps the bookkeeping. -/
theorem runEvents_conserved {J E : Type} [Inhabited J] (evs : List (Event J)) :
    ∀ (w w1 : World J E), Conserved w → runEvents w evs = Run.done w1 →
      w1.stopAt.early = true → Conserved w1 := by
  induction evs with
  | nil =>
    intro w w1 hc h _
    injection h with h
    subst h
    exact hc
  | cons e rest ih =>
    intro w w1 hc h hearly
    simp only [runEvents] at h
    split at h
    · rename_i wa hstep
      have hwa : wa.stopAt.early = true := runEvents_early rest wa w1 h hearly
      exact ih wa w1 (worldStep_conserved w wa e hc hstep hwa) h hearly
    · cases h
    · cases h

/-- A starved program stays starved under every step other than a send of
`Do`. -/
theorem worldStep_starved {J E : Type} [Inhabited J] (w w1 : World J E) (e : Event J)
    (hst : Starved w) (hne : ∀ j, e ≠ Event.doSend j)
    (h : worldStep w e = Run.done w1) : Starved w1 := by
  obtain ⟨hsp, hcur, hsmall, hgo, hbusy, hdo, hwg, hidle, hinv⟩ := hst
  have hd : specDemand w.pool = 0 := specDemand_eq_zero_of_small w.pool hsp hsmall
  cases e with
  | doSend pWork => exact absurd rfl (hne pWork)
  | doAdd => simp [worldStep, hdo] at h
  | up =>
    have hup : scallup w.pool w.rt = some (w.pool, w.rt) :=
      scallup_of_not_cond w.pool w.rt hsp (fun hc => by omega)
    simp only [worldStep, hup] at h
    injection h with h
    subst h
    exact ⟨hsp, hcur, hsmall, hgo, hbusy, hdo, hwg, hidle, hinv⟩
  | down =>
    have hdown : scallDown w.pool w.rt = some (w.pool, w.rt) :=
      scallDown_of_not_cond w.pool w.rt hsp (fun hc => by omega)
    simp only [worldStep, hdown] at h
    injection h with h
    subst h
    exact ⟨hsp, hcur, hsmall, hgo, hbusy, hdo, hwg, hidle, hinv⟩
  | recv c => simp [worldStep, atSelect, hgo c] at h
  | call c => simp [worldStep, hbusy, phaseOf] at h
  | emit c => simp [worldStep, hbusy, phaseOf] at h
  | fin c => simp [worldStep, hbusy, phaseOf] at h
  | quit c => simp [worldStep, atSelect, hgo c] at h
  | start =>
    simp only [worldStep] at h
    split at h
    · cases h
    · split at h
      · split at h
        · cases h
        · rename_i p hs
          injection h with h
          subst h
          have hp := startTicker_some w.pool p hs
          subst hp
          exact ⟨hsp, hcur, hsmall, hgo, hbusy, hdo, hwg, hidle, hinv⟩
      · cases h
  | stop =>
    simp only [worldStep, hidle] at h
    rw [if_pos hwg] at h
    cases h

theorem runEvents_starved {J E : Type} [Inhabited J] (evs : List (Event J)) :
    ∀ (w w1 : World J E), Starved w → (∀ e ∈ evs, ∀ j, e ≠ Event.doSend j) →
      runEvents w evs = Run.done w1 → Starved w1 := by
  induction evs with
  | nil =>
    intro w w1 hst _ h
    injection h with h
    subst h
    exact hst
  | cons e rest ih =>
    intro w w1 hst hne h
    simp only [runEvents] at h
    split at h
    · rename_i wa hstep
      exact ih wa w1
        (worldStep_starved w wa e hst (hne e (List.mem_cons_self _ _)) hstep)
        (fun e1 he1 => hne e1 (List.mem_cons_of_mem _ he1)) h
    · cases h
    · cases h

/-- In a starved program the function has not been called and `Stop` cannot
get past its wait. -/
theorem Starved_blocks {J E : Type} [Inhabited J] (w : World J E) (hst : Starved w) :
    w.invoked = [] ∧ worldStep w Event.stop = Run.blocked ∧
      Stop w.pool w.rt = Stopped.waiting := by
  obtain ⟨_, _, _, _, _, _, hwg, hidle, hinv⟩ := hst
  refine ⟨hinv, ?_, ?_⟩
  · simp only [worldStep, hidle]
    rw [if_pos hwg]
  · unfold Stop
    rw [if_pos hwg]

theorem startWorld_conserved {J E : Type} (cycle min max q sp : Int) (f : J → E)
    (flag : Bool) (rt : Runtime) :
    Conserved (startWorld (freshPool cycle min max q sp f flag) rt) :=
  ⟨List.Perm.refl _, rfl, rfl⟩

/-- C13, at the failing input: on the pool that `CreateScall` returns for
`min = 1`, `max = 10`, `queueCapacity = 100`, `scalePoint = 10`, right after
the send of `Do(7)` and before its `Add(1)` the counter is 0 while one job is
enqueued and unprocessed; and once a worker runs (ten jobs submitted, one
scale-up, the ten jobs processed), a job sent by `Do` can be received and
processed before `Add(1)`, and the worker's `Done()` then faults on a negative
counter. -/
theorem Do_counter_undercounts :
    (∃ w, runEvents (startWorld tinyPool tinyRuntime) [Event.doSend 7] = Run.done w ∧
        w.pool.job.buf = [7] ∧ w.invoked = [] ∧ w.pool.WaitGroup = 0 ∧
        ¬ ((w.pool.job.buf.length : Int) + (w.busy.length : Int) ≤ w.pool.WaitGroup)) ∧
      ∃ w, runEvents (startWorld tinyPool tinyRuntime)
            (submitEvents (List.range 10) ++ [Event.up] ++ serveEvents 0 10 ++
              [Event.doSend 99, Event.recv 0, Event.call 0]) = Run.done w ∧
        w.pool.WaitGroup = 0 ∧ w.busy.length = 1 ∧ w.inDo = 1 ∧
        worldStep w (Event.fin 0) = Run.crash := by
  refine ⟨⟨_, rfl, rfl, rfl, rfl, by decide⟩, ⟨_, rfl, rfl, rfl, rfl, rfl⟩⟩

/-- `Stop` as a function is its five statements taken one after the other:
when `Stop` returns on the pool and runtime of a program in which it has not
got past its wait, the five steps run and end in the state it returns. -/
theorem Stop_as_steps {J E : Type} [Inhabited J] (w : World J E)
    (p1 : WorkerScall J E) (rt1 : Runtime) (hidle : w.stopAt = StopPhase.idle)
    (h : Stop w.pool w.rt = Stopped.returned (p1, rt1)) :
    runEvents w [Event.stop, Event.stop, Event.stop, Event.stop, Event.stop] =
      Run.done { w with pool := p1, rt := rt1, stopAt := StopPhase.returned } := by
  unfold Stop at h
  by_cases hw : w.pool.WaitGroup ≠ 0
  · rw [if_pos hw] at h
    cases h
  · rw [if_neg hw] at h
    cases hj : stopCloseJob (stopTicker w.pool) with
    | none =>
      simp only [hj] at h
      cases h
    | some p2 =>
      simp only [hj] at h
      cases hp : stopCloseProgress p2 with
      | none =>
        simp only [hp] at h
        cases h
      | some p3 =>
        simp only [hp] at h
        injection h with h
        injection h with h1 h2
        subst h1
        subst h2
        simp only [runEvents, worldStep, hidle, if_neg hw, hj, hp]

theorem oneJobWorld_starved : Starved oneJobWorld :=
  ⟨by decide, rfl, by decide, fun _ => rfl, rfl, rfl, by decide, rfl, rfl⟩

/-- C14, as stated, fails, in two ways, on the pool that `CreateScall` returns
for `min = 1`, `max = 10`, `queueCapacity = 100`, `scalePoint = 10`,
`cycle = 5 s`.  After one job has been submitted with `Do`, whatever the
scaler, the workers and `Stop` do next, the function is never called and
`Stop` never gets past its wait.  And after ten jobs have been submitted, a
worker has been started and has processed them, `Stop` can close the job
channel, the worker can receive the zero value from the closed channel and
call the function on it, and `Stop` then returns: eleven calls for ten jobs
before `Stop` returns. -/
theorem exactly_once_before_Stop_returns_fails :
    CreateScall demoLimits bootRuntime (5 * timeSecond) 1 10 100 10 (fun n : Nat => 2 * n)
        false = Outcome.ret (tinyPool, tinyRuntime) ∧
      (runEvents (startWorld tinyPool tinyRuntime) (submitEvents [7]) = Run.done oneJobWorld ∧
        oneJobWorld.submitted = [7] ∧ oneJobWorld.inDo = 0 ∧
        ∀ evs : List (Event Nat), (∀ e ∈ evs, ∀ j, e ≠ Event.doSend j) →
          ∀ w, runEvents oneJobWorld evs = Run.done w →
            w.invoked = [] ∧ worldStep w Event.stop = Run.blocked ∧
              Stop w.pool w.rt = Stopped.waiting) ∧
      ∃ w, runEvents (startWorld tinyPool tinyRuntime)
            (Event.start :: (submitEvents (List.range 10) ++ [Event.up] ++ serveEvents 0 10 ++
              [Event.stop, Event.stop, Event.stop, Event.stop, Event.recv 0, Event.call 0,
                Event.stop])) = Run.done w ∧
        w.stopAt = StopPhase.returned ∧ w.inDo = 0 ∧ w.submitted.length = 10 ∧
        w.invoked.length = 11 := by
  refine ⟨?_, ⟨rfl, rfl, rfl, ?_⟩, ⟨_, rfl, rfl, rfl, rfl, rfl⟩⟩
  · exact CreateScall_of_valid demoLimits bootRuntime (5 * timeSecond) 1 10 100 10 _ false
      (by unfold ValidConfig timeSecond; decide) (fits_demoLimits 100 false (by decide))
  · intro evs hne w hrun
    exact Starved_blocks w (runEvents_starved evs oneJobWorld w oneJobWorld_starved hne hrun)

/-- C14, amended: for every valid configuration whose pool is constructed and
every run of the program from that pool (any interleaving of the steps of
`Do`, the scaler, the workers and `Stop` that neither blocks nor faults), when
no call of `Do` is between its two statements and the wait of `Stop` returns,
the function has been called exactly once on each submitted job (the called
jobs are a rearrangement of the submitted ones, so exactly `N` calls for `N`
jobs), the queue is empty and no worker holds a job. -/
theorem served_when_wait_returns {J E : Type} [Inhabited J] (lim : Limits) (rt : Runtime)
    (cycle min max q sp : Int) (f : J → E) (flag : Bool)
    (hv : ValidConfig cycle min max q sp) (hfit : Fits lim q flag) :
    ∃ p0 rt0, CreateScall lim rt cycle min max q sp f flag = Outcome.ret (p0, rt0) ∧
      ∀ (evs : List (Event J)) (w w1 : World J E),
        runEvents (startWorld p0 rt0) evs = Run.done w → w.inDo = 0 →
        w.stopAt = StopPhase.idle → worldStep w Event.stop = Run.done w1 →
          w1.stopAt = StopPhase.waited ∧ w1.invoked = w.invoked ∧
            w.invoked.Perm w.submitted ∧ w.invoked.length = w.submitted.length ∧
            w.pool.job.buf = [] ∧ w.busy = [] := by
  refine ⟨_, _, CreateScall_of_valid lim rt cycle min max q sp f flag hv hfit, ?_⟩
  intro evs w w1 hrun hdo hidle hstop
  have hearly : w.stopAt.early = true := by
    rw [hidle]
    rfl
  obtain ⟨hperm, hcount, _⟩ :=
    runEvents_conserved evs _ w (startWorld_conserved cycle min max q sp f flag _) hrun hearly
  simp only [worldStep, hidle] at hstop
  by_cases hwg : w.pool.WaitGroup ≠ 0
  · rw [if_pos hwg] at hstop
    cases hstop
  · rw [if_neg hwg] at hstop
    injection hstop with hstop
    subst hstop
    have hw : w.pool.WaitGroup = 0 := not_not.mp hwg
    rw [hw, hdo] at hcount
    have hbuf : w.pool.job.buf = [] := by
      apply List.eq_nil_of_length_eq_zero
      have : (0 : Int) + ((0 : Nat) : Int) =
          (w.pool.job.buf.length : Int) + (w.busy.length : Int) := hcount
      omega
    have hbusy : w.busy = [] := by
      apply List.eq_nil_of_length_eq_zero
      have : (0 : Int) + ((0 : Nat) : Int) =
          (w.pool.job.buf.length : Int) + (w.busy.length : Int) := hcount
      omega
    rw [hbuf, hbusy] at hperm
    have hp : w.submitted.Perm w.invoked := by
      simpa [gotJobs] using hperm
    exact ⟨rfl, rfl, hp.symm, hp.symm.length_eq, hbuf, hbusy⟩

/-- Witness for the served jobs: ten jobs submitted, one scale-up, the ten
jobs processed by the worker, then the wait of `Stop` returns. -/
theorem served_when_wait_returns_witness :
    ValidConfig (5 * timeSecond) 1 10 100 10 ∧
      runEvents (startWorld tinyPool tinyRuntime)
          (submitEvents (List.range 10) ++ [Event.up] ++ serveEvents 0 10) =
        Run.done drainedWorld ∧
      drainedWorld.inDo = 0 ∧ drainedWorld.stopAt = StopPhase.idle ∧
      drainedWorld.submitted.length = 10 ∧
      ∃ w1, worldStep drainedWorld Event.stop = Run.done w1 ∧
        w1.stopAt = StopPhase.waited ∧
        drainedWorld.invoked.Perm drainedWorld.submitted := by
  have hv : ValidConfig (5 * timeSecond) 1 10 100 10 := by
    unfold ValidConfig timeSecond
    decide
  obtain ⟨p0, rt0, hc, hall⟩ :=
    served_when_wait_returns demoLimits bootRuntime (5 * timeSecond) 1 10 100 10
      (fun n : Nat => 2 * n) false hv (fits_demoLimits 100 false (by decide))
  rw [CreateScall_of_valid demoLimits bootRuntime (5 * timeSecond) 1 10 100 10 _ false hv
    (fits_demoLimits 100 false (by decide))] at hc
  injection hc with hc
  injection hc with h1 h2
  subst h1
  subst h2
  have hrun : runEvents (startWorld tinyPool tinyRuntime)
      (submitEvents (List.range 10) ++ [Event.up] ++ serveEvents 0 10) =
        Run.done drainedWorld := rfl
  have hstop : ∃ w1, worldStep drainedWorld Event.stop = Run.done w1 := ⟨_, rfl⟩
  obtain ⟨w1, hw1⟩ := hstop
  have h := hall (submitEvents (List.range 10) ++ [Event.up] ++ serveEvents 0 10)
    drainedWorld w1 hrun rfl rfl hw1
  exact ⟨hv, hrun, rfl, rfl, rfl, w1, hw1, h.1, h.2.2.1⟩

end Worker
